import Mathlib

/-!
# Verification of the Model Memory Protocol (MMP) memory store & retrieval engine

Shallow embedding of the repository's core:
  * `src/src/transport/websocketTransport.ts` — class `InMemoryBackend`
    (store / retrieve / update / delete / consolidate / searchEvents /
    applyFilters / sortResults / hashContent);
  * `src/src/core/memoryProtocol.ts` — class `MemoryProtocol`
    (store / update / delete / extractKeywords);
  * `src/src/core/types.ts` — the data model and constants.

Modelling conventions:
  * JavaScript numbers are embedded as `ℚ` (exact rationals); the code only
    adds/compares small decimal constants.  `NaN` (which arises in the source
    when arithmetic meets `undefined`) is modelled by a dedicated `MetaVal.nan`
    value at the points where the source can produce it.
  * `Date` values are embedded as rational timestamps; every operation takes
    the current clock value `now : ℚ` explicitly in place of `new Date()`.
  * The TS `MemoryMetadata` type has an index signature `[key: string]: any`
    and is consumed by key (`event.metadata[key]`), spread-merged, and
    replaced wholesale; it is therefore embedded as a JavaScript object:
    an association list `Meta = List (String × MetaVal)` with the first
    occurrence of a key being its binding (JS objects have unique keys and
    our constructors keep them unique).
  * JS `Map` preserves insertion order and `set` on an existing key keeps its
    position: embedded as an association list with `mapSet` updating in place.
  * Strings are compared and searched as their character lists;
    `toLowerCase` is `Char.toLower` mapped over the characters (exact for the
    ASCII data the repository manipulates).
-/

/-- JavaScript runtime values that can appear in a metadata object or a
query's free-form filter map.  `.date` carries the epoch timestamp of a
`Date` object; `.strList` is an array of strings (e.g. a `tags` array stored
into metadata); `.nan` is the IEEE `NaN` produced by arithmetic on
`undefined`. -/
inductive MetaVal : Type
  | num (q : ℚ)
  | str (s : String)
  | date (t : ℚ)
  | strList (l : List String)
  | nan
  deriving DecidableEq, Repr

/-- A JavaScript object used as `MemoryMetadata`: association list keyed by
property name, first occurrence wins. -/
abbrev Meta : Type := List (String × MetaVal)

/-- Property read `o[k]`: `none` models `undefined`. -/
def objGet (o : Meta) (k : String) : Option MetaVal :=
  (o.find? (fun p => p.1 = k)).map (fun p => p.2)

/-- Property write `o[k] = v`: replaces the binding in place when the key is
present (JS objects keep the original key position), appends it otherwise. -/
def objSet : Meta → String → MetaVal → Meta
  | [], k, v => [(k, v)]
  | p :: rest, k, v => if p.1 = k then (k, v) :: rest else p :: objSet rest k v

/-- Object spread `{...base, ...upd}`: every binding of `upd` overrides or
extends `base`, keeping `base`'s key order for overridden keys and appending
new keys in `upd`'s order. -/
def objMerge (base upd : Meta) : Meta :=
  upd.foldl (fun acc p => objSet acc p.1 p.2) base

/-- JS strict equality `a === b` between a property read (possibly
`undefined`) and a filter value.  `undefined === v` is false for every
`MetaVal` we can hold (JSON filter values are never `undefined`); `NaN` is
never strictly equal to anything; `Date` objects and arrays compare by
reference, and a query-supplied value is never the same object as a stored
one, so those compare unequal. -/
def jsStrictEq : Option MetaVal → MetaVal → Bool
  | none, _ => false
  | some (MetaVal.num a), MetaVal.num b => a == b
  | some (MetaVal.str a), MetaVal.str b => a == b
  | some _, _ => false

/-- JS `x + 1` on a property read: number increments, anything else
(`undefined`, a non-number) yields `NaN`. -/
def jsIncr : Option MetaVal → MetaVal
  | some (MetaVal.num a) => MetaVal.num (a + 1)
  | _ => MetaVal.nan

/-- JS `x + y` on two property reads (used by `consolidate` for
`accessCount`): numeric addition, `NaN` otherwise. -/
def jsAdd : Option MetaVal → Option MetaVal → MetaVal
  | some (MetaVal.num a), some (MetaVal.num b) => MetaVal.num (a + b)
  | _, _ => MetaVal.nan

/-- `Math.min(1.0, x + 0.1)` applied to a property read, as in
`consolidate`'s importance bump; `Math.min` of `NaN` is `NaN`. -/
def jsImportanceBump : Option MetaVal → MetaVal
  | some (MetaVal.num a) => MetaVal.num (min 1 (a + 1/10))
  | _ => MetaVal.nan

/-- Does `as` start with `bs` (character-wise)? -/
def charsStartWith : List Char → List Char → Bool
  | _, [] => true
  | [], _ :: _ => false
  | a :: as, b :: bs => a == b && charsStartWith as bs

/-- Contiguous-substring test on character lists, the semantics of
JS `String.prototype.includes`. -/
def charsContain : List Char → List Char → Bool
  | [], bs => bs.isEmpty
  | a :: as, bs => charsStartWith (a :: as) bs || charsContain as bs

/-- `a.includes(b)` on strings. -/
def strIncludes (a b : String) : Bool :=
  charsContain a.data b.data

/-- `s.toLowerCase()` as a character list (ASCII-exact). -/
def lowerChars (s : String) : List Char :=
  s.data.map Char.toLower

/-- `a.toLowerCase().includes(qLower)` where `qLower` is an already
lower-cased character list. -/
def lowerIncludes (a : String) (qLower : List Char) : Bool :=
  charsContain (lowerChars a) qLower

/-- Truncation to a signed 32-bit integer, the `ToInt32` coercion performed
by JS `<<` and `&`. -/
def toInt32 (z : ℤ) : ℤ :=
  (z + 2 ^ 31) % 2 ^ 32 - 2 ^ 31

/-- One step of `InMemoryBackend.hashContent`'s loop:
`hash = ((hash << 5) - hash) + char; hash = hash & hash`.
`hash << 5` coerces to int32 with wrap; the subtraction and addition are
exact in doubles at these magnitudes; `hash & hash` coerces back to int32. -/
def hashStep (hash : ℤ) (c : ℕ) : ℤ :=
  toInt32 (toInt32 (hash * 32) - hash + c)

/-- `InMemoryBackend.hashContent`: 32-bit rolling hash over the UTF-16 code
units of the content (the repository's content is ASCII, where code units
and code points coincide).  The source renders the final value with
`toString`, an injective map, so we keep the integer. -/
def hashContent (content : String) : ℤ :=
  content.data.foldl (fun h ch => hashStep h ch.toNat) 0

/-- `MemoryContent` (`src/src/core/types.ts`): optional fields stay `Option`
because the source tests them for `undefined` (`if (event.content.keywords)`). -/
structure MemoryContent : Type where
  text : String
  keywords : Option (List String)
  tags : Option (List String)
  deriving DecidableEq, Repr

/-- `MemoryContext`, reduced to the fields the core reads or writes. -/
structure MemoryContext : Type where
  sessionId : String
  memoryId : String
  deriving DecidableEq, Repr

/-- `MemoryEvent` (`src/src/core/types.ts`).  `type` is the
`MemoryEventType` string and `memoryType` the `MemoryType` string (the TS
enums are string-valued).  `ttl` is in seconds. -/
structure MemoryEvent : Type where
  id : String
  type : String
  memoryType : String
  context : MemoryContext
  content : MemoryContent
  metadata : Meta
  timestamp : ℚ
  ttl : Option ℚ
  deriving DecidableEq, Repr

/-- `MemoryQuery` (`src/src/core/types.ts`).  `limit` and `offset` are the
natural numbers the callers pass (the engine's `slice` semantics for
negative or fractional numbers is out of the repository's use).  `timeRange`
is `(start?, end?)`. -/
structure MemoryQuery : Type where
  id : Option String
  query : String
  memoryTypes : Option (List String)
  storageTiers : Option (List String)
  timeRange : Option (Option ℚ × Option ℚ)
  limit : Option ℕ
  offset : Option ℕ
  threshold : Option ℚ
  filters : Option Meta
  deriving DecidableEq, Repr

/-- A query with every optional field absent. -/
def MemoryQuery.plain (q : String) : MemoryQuery :=
  ⟨none, q, none, none, none, none, none, none, none⟩

/-- `DEFAULT_SEARCH_LIMIT` (`src/src/core/types.ts:330`). -/
def DEFAULT_SEARCH_LIMIT : ℕ := 10

/-- `DEFAULT_TTL` (`src/src/core/types.ts:331`), 24 hours in seconds. -/
def DEFAULT_TTL : ℚ := 86400

/-- `DEFAULT_SIMILARITY_THRESHOLD` (`src/src/core/types.ts:329`). -/
def DEFAULT_SIMILARITY_THRESHOLD : ℚ := 7/10

/-- The state of one `InMemoryBackend`: the insertion-ordered
`Map<string, MemoryEvent>` plus the `initialized` flag. -/
structure BackendState : Type where
  inited : Bool
  events : List (String × MemoryEvent)
  deriving DecidableEq, Repr

/-- `Map.get`. -/
def mapGet (m : List (String × MemoryEvent)) (k : String) : Option MemoryEvent :=
  (m.find? (fun p => p.1 = k)).map (fun p => p.2)

/-- `Map.set`: replaces in place when the key exists (JS `Map` keeps the
original insertion position), appends otherwise. -/
def mapSet : List (String × MemoryEvent) → String → MemoryEvent →
    List (String × MemoryEvent)
  | [], k, v => [(k, v)]
  | p :: rest, k, v => if p.1 = k then (k, v) :: rest else p :: mapSet rest k v

/-- `Map.delete`, returning the map and whether a binding was removed. -/
def mapDelete (m : List (String × MemoryEvent)) (k : String) :
    List (String × MemoryEvent) × Bool :=
  ((m.filter (fun p => !(p.1 = k : Bool))), (m.find? (fun p => p.1 = k)).isSome)

/-! ## `InMemoryBackend` operations (`src/src/transport/websocketTransport.ts`) -/

/-- A candidate flowing through `retrieve`'s pipeline: the event together
with the `_score` property that `searchEvents` attaches (`{ ...event,
_score: score }`); an exact-id candidate carries no `_score`. -/
abbrev Scored : Type := MemoryEvent × Option ℚ

/-- The relevance score computed by `searchEvents`' loop body
(lines 582–605): start at 0, add 0.8 on a text hit, 0.6 per keyword hit,
0.7 per tag hit, where a "hit" is `lowerCased(field).includes(queryLower)`. -/
def scoreOf (qLower : List Char) (e : MemoryEvent) : ℚ :=
  let s0 : ℚ := 0
  let s1 := if lowerIncludes e.content.text qLower then s0 + 8/10 else s0
  let s2 := match e.content.keywords with
    | none => s1
    | some ks => ks.foldl (fun acc k => if lowerIncludes k qLower then acc + 6/10 else acc) s1
  let s3 := match e.content.tags with
    | none => s2
    | some ts => ts.foldl (fun acc t => if lowerIncludes t qLower then acc + 7/10 else acc) s2
  s3

/-- The effective threshold `query.threshold || 0.5` of line 608: a missing
threshold — and, because `0` is falsy in JS, an explicit threshold of `0` —
falls back to `0.5`. -/
def effThreshold : Option ℚ → ℚ
  | some t => if t = 0 then 1/2 else t
  | none => 1/2

/-- `InMemoryBackend.searchEvents` (lines 577–614): score every stored event
and keep those whose score reaches the effective threshold, attaching the
score. -/
def searchEvents (q : MemoryQuery) (s : BackendState) : List (MemoryEvent × ℚ) :=
  (s.events.map Prod.snd).filterMap (fun e =>
    let sc := scoreOf (lowerChars q.query) e
    if effThreshold q.threshold ≤ sc then some (e, sc) else none)

/-- Storage-tier membership test of `applyFilters` (line 629):
`query.storageTiers!.includes(event.metadata.storageTier)` — a missing or
non-string `storageTier` matches nothing. -/
def tierMatch (ts : List String) (p : Scored) : Bool :=
  match objGet p.1.metadata "storageTier" with
  | some (MetaVal.str t) => ts.contains t
  | _ => false

/-- Time-range test of `applyFilters` (lines 635–643): reject when a
present `start` exceeds the timestamp or a present `end` precedes it. -/
def timeMatch (tr : Option ℚ × Option ℚ) (p : Scored) : Bool :=
  (match tr.1 with | some st => decide (st ≤ p.1.timestamp) | none => true) &&
  (match tr.2 with | some en => decide (p.1.timestamp ≤ en) | none => true)

/-- Free-form filter test of `applyFilters` (lines 648–655): every
key/value pair must be strictly equal to the metadata property. -/
def filtersMatch (fs : Meta) (p : Scored) : Bool :=
  fs.all (fun kv => jsStrictEq (objGet p.1.metadata kv.1) kv.2)

/-- Filter stage 1 of `applyFilters` (lines 620–624): memory types. -/
def stageTypes (l : List Scored) (q : MemoryQuery) : List Scored :=
  match q.memoryTypes with
  | some ts => if 0 < ts.length then l.filter (fun p => ts.contains p.1.memoryType) else l
  | none => l

/-- Filter stage 2 of `applyFilters` (lines 627–631): storage tiers. -/
def stageTiers (l : List Scored) (q : MemoryQuery) : List Scored :=
  match q.storageTiers with
  | some ts => if 0 < ts.length then l.filter (tierMatch ts) else l
  | none => l

/-- Filter stage 3 of `applyFilters` (lines 634–644): time range. -/
def stageTime (l : List Scored) (q : MemoryQuery) : List Scored :=
  match q.timeRange with
  | some tr => l.filter (timeMatch tr)
  | none => l

/-- Filter stage 4 of `applyFilters` (lines 647–656): free-form metadata
equality filters. -/
def stageFilters (l : List Scored) (q : MemoryQuery) : List Scored :=
  match q.filters with
  | some fs => l.filter (filtersMatch fs)
  | none => l

/-- `InMemoryBackend.applyFilters` (lines 616–659): the four sequential
filter stages. -/
def applyFilters (l : List Scored) (q : MemoryQuery) : List Scored :=
  stageFilters (stageTime (stageTiers (stageTypes l q) q) q) q

/-- JS strict inequality `a !== b` between the two `importance` property
reads in `sortResults` (line 675): `undefined !== undefined` is false,
`NaN !== NaN` is true, numbers and strings compare by value, objects by
reference (two distinct stored metadata objects hold distinct `Date`/array
objects). -/
def jsStrictNeq : Option MetaVal → Option MetaVal → Bool
  | none, none => false
  | some (MetaVal.num a), some (MetaVal.num b) => !(a == b)
  | some (MetaVal.str a), some (MetaVal.str b) => !(a == b)
  | _, _ => true

/-- `importanceB - importanceA` as consumed by `Array.prototype.sort`: a
non-numeric operand gives `NaN`, which the sort machinery coerces to `+0`
(ECMA-262 `SortCompare`). -/
def jsSubNum : Option MetaVal → Option MetaVal → ℚ
  | some (MetaVal.num a), some (MetaVal.num b) => a - b
  | _, _ => 0

/-- The comparator of `InMemoryBackend.sortResults` (lines 661–682):
score descending, then `metadata.importance` descending, then `timestamp`
descending.  A missing `_score` reads as 0 (`_score || 0`). -/
def cmpResults (a b : Scored) : ℚ :=
  let scoreA := a.2.getD 0
  let scoreB := b.2.getD 0
  if scoreA ≠ scoreB then scoreB - scoreA
  else
    let iA := objGet a.1.metadata "importance"
    let iB := objGet b.1.metadata "importance"
    if jsStrictNeq iA iB then jsSubNum iB iA
    else b.1.timestamp - a.1.timestamp

/-- `a` sorts no later than `b` under the comparator. -/
def sortRel (a b : Scored) : Bool :=
  decide (cmpResults a b ≤ 0)

/-- Insert into a sorted list, before the first element it does not have to
follow — the placement a stable sort gives. -/
def orderedIns (x : Scored) : List Scored → List Scored
  | [] => [x]
  | y :: ys => if sortRel x y then x :: y :: ys else y :: orderedIns x ys

/-- Stable insertion sort.  `Array.prototype.sort` is specified stable
(ES2019+), and any stable sort by the same total preorder produces the same
list, so this is the observable behavior of `sortResults`. -/
def isort : List Scored → List Scored
  | [] => []
  | x :: xs => orderedIns x (isort xs)

/-- `InMemoryBackend.sortResults`. -/
def sortResults (l : List Scored) : List Scored := isort l

/-- The candidate set of `retrieve` (lines 452–461): the single exact-id
match when `query.id` is set (and truthy — the empty string is falsy and
takes the full-search path), otherwise the full search. -/
def candidatesOf (q : MemoryQuery) (s : BackendState) : List Scored :=
  match q.id with
  | some i =>
      if i.isEmpty then (searchEvents q s).map (fun p => (p.1, some p.2))
      else match mapGet s.events i with
        | some e => [(e, none)]
        | none => []
  | none => (searchEvents q s).map (fun p => (p.1, some p.2))

/-- The effective page size `query.limit || DEFAULT_SEARCH_LIMIT` of
line 471: a missing limit — and, `0` being falsy, an explicit limit of `0` —
falls back to `DEFAULT_SEARCH_LIMIT`. -/
def effLimit : Option ℕ → ℕ
  | some n => if n = 0 then DEFAULT_SEARCH_LIMIT else n
  | none => DEFAULT_SEARCH_LIMIT

/-- The access-metadata mutation of `store`/`retrieve`:
`metadata.lastAccessed = new Date(); metadata.accessCount++`. -/
def bumpMeta (now : ℚ) (m : Meta) : Meta :=
  let m1 := objSet m "lastAccessed" (MetaVal.date now)
  objSet m1 "accessCount" (jsIncr (objGet m1 "accessCount"))

/-- The access-tracking loop body of `retrieve` (lines 475–481): look the
page entry's id up in the map and mutate the stored record's metadata in
place (its position in the map does not move). -/
def bumpAccess (now : ℚ) (m : List (String × MemoryEvent)) (id : String) :
    List (String × MemoryEvent) :=
  m.map (fun p =>
    if p.1 = id then (p.1, { p.2 with metadata := bumpMeta now p.2.metadata }) else p)

/-- `MemorySearchResult` as produced by the backend; `searchTime` (wall
clock) is not modelled. -/
structure MemorySearchResult : Type where
  memories : List Scored
  totalCount : ℕ
  query : MemoryQuery
  deriving DecidableEq, Repr

/-- `InMemoryBackend.retrieve` (lines 444–491): candidates, filters, sort,
paginate, then bump `accessCount`/`lastAccessed` on the stored copy of every
record of the returned page. -/
def InMemoryBackend.retrieve (now : ℚ) (q : MemoryQuery) (s : BackendState) :
    Except String (MemorySearchResult × BackendState) :=
  if !s.inited then .error "Backend not initialized" else
  let results := candidatesOf q s
  let filtered := applyFilters results q
  let sorted := sortResults filtered
  let offset := q.offset.getD 0
  let limit := effLimit q.limit
  let page := (sorted.drop offset).take limit
  let events' := page.foldl (fun m p => bumpAccess now m p.1.id) s.events
  .ok ({ memories := page, totalCount := sorted.length, query := q },
       { s with events := events' })

/-- `InMemoryBackend.store` (lines 430–442): shallow-copy the event into the
map, then set `lastAccessed` and increment `accessCount` on the stored copy.
(The shallow copy shares its `metadata` object with the caller's event, so
the mutation is visible through the argument as well; the map state below is
the observable backend state.) -/
def InMemoryBackend.store (now : ℚ) (event : MemoryEvent) (s : BackendState) :
    Except String BackendState :=
  if !s.inited then .error "Backend not initialized" else
  let stored := { event with metadata := bumpMeta now event.metadata }
  .ok { s with events := mapSet s.events event.id stored }

/-- `Partial<MemoryEvent>` as it reaches `InMemoryBackend.update` at runtime.
The RPC path (`MemoryProtocol.handleUpdateMessage`) forwards
`message.params.updates` without validation, so the `metadata` object of a
patch may carry any subset of keys. -/
structure EventPatch : Type where
  id : Option String
  type : Option String
  memoryType : Option String
  context : Option MemoryContext
  content : Option MemoryContent
  metadata : Option Meta
  timestamp : Option ℚ
  ttl : Option ℚ
  deriving DecidableEq, Repr

/-- The all-absent patch. -/
def EventPatch.empty : EventPatch := ⟨none, none, none, none, none, none, none, none⟩

/-- The object spread `{ ...event, ...updates }` of line 504: every
top-level field present in the patch replaces the event's — nested objects,
`metadata` included, are replaced wholesale. -/
def applyPatch (e : MemoryEvent) (p : EventPatch) : MemoryEvent :=
  { id := p.id.getD e.id
    type := p.type.getD e.type
    memoryType := p.memoryType.getD e.memoryType
    context := p.context.getD e.context
    content := p.content.getD e.content
    metadata := p.metadata.getD e.metadata
    timestamp := p.timestamp.getD e.timestamp
    ttl := match p.ttl with | some t => some t | none => e.ttl }

/-- The event `InMemoryBackend.update` stores on success: the spread-merged
record with `metadata.updated` stamped. -/
def patchedEvent (now : ℚ) (old : MemoryEvent) (patch : EventPatch) : MemoryEvent :=
  { (applyPatch old patch) with
    metadata := objSet (applyPatch old patch).metadata "updated" (MetaVal.date now) }

/-- `InMemoryBackend.update` (lines 493–508): `NotFound` when the id is
absent; otherwise spread-merge and stamp `metadata.updated`. -/
def InMemoryBackend.update (now : ℚ) (id : String) (patch : EventPatch)
    (s : BackendState) : Except String BackendState :=
  if !s.inited then .error "Backend not initialized" else
  match mapGet s.events id with
  | none => .error ("Event not found: " ++ id)
  | some event =>
    let updated := applyPatch event patch
    let updated' := { updated with metadata := objSet updated.metadata "updated" (MetaVal.date now) }
    .ok { s with events := mapSet s.events id updated' }

/-- `InMemoryBackend.delete` (lines 510–519). -/
def InMemoryBackend.delete (id : String) (s : BackendState) :
    Except String BackendState :=
  if !s.inited then .error "Backend not initialized" else
  let d := mapDelete s.events id
  if d.2 then .ok { s with events := d.1 } else .error ("Event not found: " ++ id)

/-- The merge branch of `consolidate` (lines 538–548): raise the kept
record's importance by 0.1 capped at 1.0, then add the folded record's
`accessCount` onto it. -/
def mergeIntoKept (kept folded : MemoryEvent) : MemoryEvent :=
  let m1 := objSet kept.metadata "importance" (jsImportanceBump (objGet kept.metadata "importance"))
  let m2 := objSet m1 "accessCount" (jsAdd (objGet m1 "accessCount") (objGet folded.metadata "accessCount"))
  { kept with metadata := m2 }

/-- `consolidated.find(e => hashContent(e.content.text) === contentHash)`
followed by the in-place merge: update the first element with the matching
fingerprint (the source's `if (existing)` guard makes a missing match a
no-op). -/
def foldIntoFirst (h : ℤ) (folded : MemoryEvent) : List MemoryEvent → List MemoryEvent
  | [] => []
  | c :: cs =>
      if hashContent c.content.text = h then mergeIntoKept c folded :: cs
      else c :: foldIntoFirst h folded cs

/-- The loop of `consolidate` (lines 530–550): first record per fingerprint
is kept, later ones are folded into it. -/
def consolidateGo : List MemoryEvent → List MemoryEvent → List ℤ → List MemoryEvent
  | [], acc, _ => acc
  | e :: es, acc, seen =>
    let h := hashContent e.content.text
    if seen.contains h then consolidateGo es (foldIntoFirst h e acc) seen
    else consolidateGo es (acc ++ [e]) (seen ++ [h])

/-- `InMemoryBackend.consolidate` (lines 521–553). -/
def InMemoryBackend.consolidate (events : List MemoryEvent) (s : BackendState) :
    Except String (List MemoryEvent) :=
  if !s.inited then .error "Backend not initialized" else
  .ok (consolidateGo events [] [])

/-! ## `MemoryProtocol` operations (`src/src/core/memoryProtocol.ts`) -/

/-- `MemoryProtocol.extractKeywords` (lines 337–344):
`content.toLowerCase().split(/\s+/).filter(w => w.length > 3).slice(0, 10)`.
The regex split's empty boundary pieces never survive the length filter, so
splitting at every whitespace character is observationally identical. -/
def extractKeywords (content : String) : List String :=
  (((((content.data.map Char.toLower).splitOnP (fun c => c.isWhitespace)).map
      (fun w => String.mk w)).filter (fun w => 3 < w.data.length)).take 10)

/-- The state of a `MemoryProtocol` instance: `initialized` flag, the open
session ids, and the registered storage backends in registration order. -/
structure ProtocolState : Type where
  inited : Bool
  sessions : List String
  backends : List BackendState
  deriving DecidableEq, Repr

/-- The metadata defaults of `MemoryProtocol.store` (lines 128–138), before
the caller's `metadata` argument is spread over them. -/
def baseMetadata (now : ℚ) : Meta :=
  [("source", MetaVal.str "user"), ("confidence", MetaVal.num 1),
   ("importance", MetaVal.num (1/2)), ("accessCount", MetaVal.num 0),
   ("lastAccessed", MetaVal.date now), ("created", MetaVal.date now),
   ("updated", MetaVal.date now), ("storageTier", MetaVal.str "main_context")]

/-- `metadata?.tags || []` (line 125): absent metadata, an absent `tags`
key, or a falsy value yield the empty array.  (A truthy non-array value
would be passed through by the source; such values do not occur in the
repository and are not representable as a tag list.) -/
def tagsOfMeta (md : Meta) : List String :=
  match objGet md "tags" with
  | some (MetaVal.strList ts) => ts
  | _ => []

/-- The `MemoryEvent` constructed by `MemoryProtocol.store` (lines 119–149):
fresh uuid (passed in explicitly as `freshId`), extracted keywords, caller
tags, defaulted-and-overridden metadata, `ttl := DEFAULT_TTL`. -/
def buildEvent (now : ℚ) (freshId text mt sessionId : String)
    (mdOpt : Option Meta) : MemoryEvent :=
  { id := freshId
    type := "store"
    memoryType := mt
    context := { sessionId := sessionId, memoryId := freshId }
    content := { text := text
                 keywords := some (extractKeywords text)
                 tags := some (tagsOfMeta (mdOpt.getD [])) }
    metadata := objMerge (baseMetadata now) (mdOpt.getD [])
    timestamp := now
    ttl := some DEFAULT_TTL }

/-- `k` successive access bumps of one metadata object. -/
def iterBump (now : ℚ) : ℕ → Meta → Meta
  | 0, m => m
  | k + 1, m => iterBump now k (bumpMeta now m)

/-- The copy of `event` each backend's map holds after a `k`-backend
fan-out: the shared metadata object has been bumped `k` times. -/
def storedCopy (now : ℚ) (k : ℕ) (event : MemoryEvent) : MemoryEvent :=
  { event with metadata := iterBump now k event.metadata }

/-- Index of the first backend whose `store` would throw
`"Backend not initialized"`. -/
def firstBadIdx : List BackendState → Option ℕ
  | [] => none
  | b :: rest => if !b.inited then some 0 else (firstBadIdx rest).map (· + 1)

/-- `MemoryProtocol.storeEvent` fan-out (lines 312–319) over
`getRelevantBackends`, which returns every registered backend (line 334),
combined with `InMemoryBackend.store` on each.  Every `{ ...event }` copy
stored by a backend shares the one `metadata` object of the argument event,
and each backend's `store` increments `accessCount` on that shared object —
so after the loop every stored copy exposes the metadata bumped once per
successful backend store.  An uninitialized backend throws, stopping the
loop with the earlier backends already written. -/
def fanoutStore (now : ℚ) (event : MemoryEvent) (backends : List BackendState) :
    List BackendState × Option String :=
  match firstBadIdx backends with
  | none =>
      let md := iterBump now backends.length event.metadata
      (backends.map (fun b =>
        { b with events := mapSet b.events event.id { event with metadata := md } }), none)
  | some j =>
      let md := iterBump now j event.metadata
      (backends.enum.map (fun p =>
        if p.1 < j then
          { p.2 with events := mapSet p.2.events event.id { event with metadata := md } }
        else p.2),
       some "Backend not initialized")

/-- `MemoryProtocol.store` (lines 104–156): initialization and session
checks, event construction, fan-out to every backend.  Returns the post
state and the error, if any (the created event's id is the supplied
`freshId`). -/
def MemoryProtocol.store (now : ℚ) (freshId text mt sessionId : String)
    (mdOpt : Option Meta) (st : ProtocolState) : ProtocolState × Option String :=
  if !st.inited then (st, some "Protocol not initialized")
  else if !(st.sessions.contains sessionId) then
    (st, some ("Session not found: " ++ sessionId))
  else
    let event := buildEvent now freshId text mt sessionId mdOpt
    let r := fanoutStore now event st.backends
    ({ st with backends := r.1 }, r.2)

/-- The backend loop of `MemoryProtocol.update` (lines 215–217): sequential
`backend.update` on every registered backend; the first failure propagates,
leaving the earlier backends already updated and the rest untouched. -/
def updAll (now : ℚ) (id : String) (patch : EventPatch) :
    List BackendState → List BackendState × Option String
  | [] => ([], none)
  | b :: rest =>
    match InMemoryBackend.update now id patch b with
    | .ok b' =>
        let r := updAll now id patch rest
        (b' :: r.1, r.2)
    | .error msg => (b :: rest, some msg)

/-- `MemoryProtocol.update` (lines 200–220). -/
def MemoryProtocol.update (now : ℚ) (memoryId : String) (patch : EventPatch)
    (sessionId : String) (st : ProtocolState) : ProtocolState × Option String :=
  if !st.inited then (st, some "Protocol not initialized")
  else if !(st.sessions.contains sessionId) then
    (st, some ("Session not found: " ++ sessionId))
  else
    let r := updAll now memoryId patch st.backends
    ({ st with backends := r.1 }, r.2)

/-- The backend loop of `MemoryProtocol.delete` (lines 236–238). -/
def delAll (id : String) : List BackendState → List BackendState × Option String
  | [] => ([], none)
  | b :: rest =>
    match InMemoryBackend.delete id b with
    | .ok b' =>
        let r := delAll id rest
        (b' :: r.1, r.2)
    | .error msg => (b :: rest, some msg)

/-- `MemoryProtocol.delete` (lines 225–241). -/
def MemoryProtocol.delete (memoryId sessionId : String) (st : ProtocolState) :
    ProtocolState × Option String :=
  if !st.inited then (st, some "Protocol not initialized")
  else if !(st.sessions.contains sessionId) then
    (st, some ("Session not found: " ++ sessionId))
  else
    let r := delAll memoryId st.backends
    ({ st with backends := r.1 }, r.2)

/-! ## Derived observation and specification-side definitions -/

/-- The sorted, filtered candidate set that `retrieve` paginates. -/
def sortedFiltered (q : MemoryQuery) (s : BackendState) : List Scored :=
  sortResults (applyFilters (candidatesOf q s) q)

/-- Ids of a scored list, in order. -/
def idsOf (l : List Scored) : List String :=
  l.map (fun p => p.1.id)

/-- The page `retrieve` returns: the slice of the sorted, filtered set at
the effective offset and limit. -/
def pageOf (q : MemoryQuery) (s : BackendState) : List Scored :=
  ((sortedFiltered q s).drop (q.offset.getD 0)).take (effLimit q.limit)

/-- The event map after the access-tracking pass over a page. -/
def bumpedEvents (now : ℚ) (page : List Scored) (m : List (String × MemoryEvent)) :
    List (String × MemoryEvent) :=
  page.foldl (fun acc p => bumpAccess now acc p.1.id) m

/-- What the caller observes on a record returned by `retrieve` after the
call: the page entries are shallow copies (`{ ...event, _score }`, line 609)
— or, on the exact-id path, the stored object itself (line 456) — so their
`metadata` field is the same object as the stored record's, and the
access-tracking mutation of lines 475–481 is visible through them. -/
def observedEvent (s' : BackendState) (p : Scored) : MemoryEvent :=
  match mapGet s'.events p.1.id with
  | some st => { p.1 with metadata := st.metadata }
  | none => p.1

/-- Sequential paginated retrieval: `K` successive `retrieve` calls with
offsets `k*L, (k+1)*L, …` and limit `L`, each call running on the state the
previous one left behind (including its access-tracking side effects). -/
def runPages (nowf : ℕ → ℚ) (q : MemoryQuery) (L : ℕ) :
    ℕ → ℕ → BackendState → List (List Scored) × BackendState
  | 0, _, s => ([], s)
  | K + 1, k, s =>
    match InMemoryBackend.retrieve (nowf k) { q with offset := some (k * L), limit := some L } s with
    | .ok rp =>
        let r := runPages nowf q L K (k + 1) rp.2
        (rp.1.memories :: r.1, r.2)
    | .error _ => ([], s)

/-- The state a pagination step leaves behind: the page at offset `k*L`
with limit `L` has been retrieved and its access bumps applied. -/
def nextState (nowf : ℕ → ℚ) (q : MemoryQuery) (L k : ℕ) (s₁ : BackendState) :
    BackendState :=
  { s₁ with
    events :=
      bumpedEvents (nowf k)
        (pageOf { q with offset := some (k * L), limit := some L } s₁)
        s₁.events }

/-- The closed-form score of the specification: `0.8` for a text hit plus
`0.6` per keyword hit plus `0.7` per tag hit. -/
def specScore (q : MemoryQuery) (e : MemoryEvent) : ℚ :=
  (if lowerIncludes e.content.text (lowerChars q.query) then 8/10 else 0)
  + 6/10 * (((e.content.keywords.getD []).filter
      (fun k => lowerIncludes k (lowerChars q.query))).length : ℚ)
  + 7/10 * (((e.content.tags.getD []).filter
      (fun t => lowerIncludes t (lowerChars q.query))).length : ℚ)

/-- The numeric `accessCount` of a record (0 for a missing or non-numeric
value; the claims below always supply numeric counts). -/
def acOf (e : MemoryEvent) : ℚ :=
  match objGet e.metadata "accessCount" with
  | some (MetaVal.num q) => q
  | _ => 0

/-- Sum of the access counts of a record list. -/
def sumAcc (l : List MemoryEvent) : ℚ :=
  (l.map acOf).sum

/-- Is a property read a number? -/
def isNumVal : Option MetaVal → Bool
  | some (MetaVal.num _) => true
  | _ => false

/-- Well-formedness of a backend state, maintained by the backend
operations and assumed by the access-tracking theorems: map keys are
unique, each stored event's `id` equals its key, and its `accessCount` is a
number. -/
def WFState (s : BackendState) : Prop :=
  (s.events.map Prod.fst).Nodup ∧
  ∀ p ∈ s.events, p.2.id = p.1 ∧ isNumVal (objGet p.2.metadata "accessCount") = true

instance : DecidablePred WFState := fun s => by
  unfold WFState; infer_instance

/-! ## Concrete inputs for counterexamples and witnesses -/

/-- C1 input: a record matching nothing. -/
def c1Ev : MemoryEvent :=
  { id := "e1", type := "store", memoryType := "semantic", context := ⟨"s", "e1"⟩,
    content := ⟨"abc", none, none⟩, metadata := [("importance", MetaVal.num (1/2))],
    timestamp := 1, ttl := none }

/-- C1 input: one-record backend. -/
def c1S : BackendState := ⟨true, [("e1", c1Ev)]⟩

/-- C1 input: a query with an explicit threshold of 0. -/
def c1Q : MemoryQuery := { MemoryQuery.plain "zzz" with threshold := some 0 }

/-- C4 input: protocol with one initialized backend and one session. -/
def c4St : ProtocolState := ⟨true, ["sess"], [⟨true, []⟩]⟩

/-- C4 input: caller metadata of the README scenario. -/
def c4Meta : Meta :=
  [("importance", MetaVal.num (8/10)),
   ("tags", MetaVal.strList ["preference", "programming"])]

/-- C4 input: the backend state after storing the scenario record through
`MemoryProtocol.store`. -/
def c4B : BackendState :=
  ((MemoryProtocol.store 100 "mem-1" "The user prefers TypeScript over JavaScript"
      "semantic" "sess" (some c4Meta) c4St).1.backends).headD ⟨false, []⟩

/-- C5 input: a stored record with a `source` metadata key. -/
def c5Old : MemoryEvent :=
  { id := "m", type := "store", memoryType := "semantic", context := ⟨"s", "m"⟩,
    content := ⟨"txt", none, none⟩,
    metadata := [("source", MetaVal.str "user"), ("importance", MetaVal.num (9/10)),
                 ("accessCount", MetaVal.num 1)],
    timestamp := 1, ttl := none }

/-- C5 input: one-record backend. -/
def c5S : BackendState := ⟨true, [("m", c5Old)]⟩

/-- C5 input: a patch supplying a partial metadata object. -/
def c5Patch : EventPatch :=
  { EventPatch.empty with metadata := some [("importance", MetaVal.num (2/10))] }

/-- C6 input: a backend holding no record. -/
def c6B1 : BackendState := ⟨true, []⟩

/-- C6 input: the record only the second backend holds. -/
def c6Ev : MemoryEvent :=
  { id := "m", type := "store", memoryType := "semantic", context := ⟨"s", "m"⟩,
    content := ⟨"txt", none, none⟩, metadata := [("accessCount", MetaVal.num 0)],
    timestamp := 1, ttl := none }

/-- C6 input: the backend holding `"m"`. -/
def c6B2 : BackendState := ⟨true, [("m", c6Ev)]⟩

/-- C6 input: protocol with two backends, only the second holding `"m"`. -/
def c6St : ProtocolState := ⟨true, ["s"], [c6B1, c6B2]⟩

/-- C6 witness input: protocol whose single backend holds `"m"`. -/
def c6WSt : ProtocolState := ⟨true, ["s"], [c6B2]⟩

/-- C7 input: a record whose text matches query "x". -/
def c7Ev : MemoryEvent :=
  { id := "a", type := "store", memoryType := "semantic", context := ⟨"s", "a"⟩,
    content := ⟨"x", none, none⟩,
    metadata := [("importance", MetaVal.num (1/2)), ("accessCount", MetaVal.num 0)],
    timestamp := 1, ttl := none }

/-- C7 input: one-record backend. -/
def c7S : BackendState := ⟨true, [("a", c7Ev)]⟩

/-- C7 input: a query with an explicit limit of 0. -/
def c7Q : MemoryQuery := { MemoryQuery.plain "x" with limit := some 0 }

/-- C7 witness input: three matching records. -/
def c7wS : BackendState :=
  ⟨true,
    [("a", { c7Ev with id := "a", timestamp := 3, context := ⟨"s", "a"⟩ }),
     ("b", { c7Ev with id := "b", timestamp := 2, context := ⟨"s", "b"⟩ }),
     ("c", { c7Ev with id := "c", timestamp := 1, context := ⟨"s", "c"⟩ })]⟩

/-- C7 witness input: `limit = 5`, `offset = 0`. -/
def c7wQ : MemoryQuery := { MemoryQuery.plain "x" with limit := some 5, offset := some 0 }

/-- C7 witness: the result/state pair of the retrieve call. -/
def c7wPair : MemorySearchResult × BackendState :=
  match InMemoryBackend.retrieve 9 c7wQ c7wS with
  | .ok rp => rp
  | .error _ => (⟨[], 0, c7wQ⟩, c7wS)

/-- C3 input: a record with `accessCount = 5`. -/
def c3Ev : MemoryEvent :=
  { id := "a", type := "store", memoryType := "semantic", context := ⟨"s", "a"⟩,
    content := ⟨"x", none, none⟩,
    metadata := [("importance", MetaVal.num (1/2)), ("accessCount", MetaVal.num 5)],
    timestamp := 1, ttl := none }

/-- C3 input: one-record backend. -/
def c3S : BackendState := ⟨true, [("a", c3Ev)]⟩

/-- C3 input: the retrieve call of the counterexample. -/
def c3Run : Except String (MemorySearchResult × BackendState) :=
  InMemoryBackend.retrieve 42 (MemoryQuery.plain "x") c3S

/-- C3 witness: the result/state pair of a retrieve call on `c7wS`-like
data (kept separate from the counterexample input). -/
def c3wPair : MemorySearchResult × BackendState :=
  match InMemoryBackend.retrieve 50 (MemoryQuery.plain "x") c7S with
  | .ok rp => rp
  | .error _ => (⟨[], 0, MemoryQuery.plain "x"⟩, c7S)

/-- C2 witness inputs: three records with identical text and access counts
1, 2, 3. -/
def c2EvA : MemoryEvent :=
  { id := "a", type := "store", memoryType := "semantic", context := ⟨"s", "a"⟩,
    content := ⟨"dup", none, none⟩,
    metadata := [("importance", MetaVal.num (1/2)), ("accessCount", MetaVal.num 1)],
    timestamp := 1, ttl := none }

/-- C2 witness input. -/
def c2EvB : MemoryEvent :=
  { c2EvA with id := "b", metadata := [("accessCount", MetaVal.num 2)], timestamp := 2 }

/-- C2 witness input. -/
def c2EvC : MemoryEvent :=
  { c2EvA with id := "c", metadata := [("accessCount", MetaVal.num 3)], timestamp := 3 }

/-- C8 input: first record (newer, sorts first). -/
def c8Ev1 : MemoryEvent :=
  { id := "a", type := "store", memoryType := "semantic", context := ⟨"s", "a"⟩,
    content := ⟨"x", none, none⟩,
    metadata := [("accessCount", MetaVal.num 1), ("importance", MetaVal.num (1/2))],
    timestamp := 2, ttl := none }

/-- C8 input: second record (older, sorts second). -/
def c8Ev2 : MemoryEvent :=
  { c8Ev1 with id := "b", context := ⟨"s", "b"⟩, timestamp := 1 }

/-- C8 input: two-record backend. -/
def c8S : BackendState := ⟨true, [("a", c8Ev1), ("b", c8Ev2)]⟩

/-- C8 input: a query whose free-form filter constrains `accessCount` —
the metadata key the access-tracking side effect mutates. -/
def c8Q : MemoryQuery :=
  { MemoryQuery.plain "x" with filters := some [("accessCount", MetaVal.num 1)] }

/-- C8 witness input: the same two records queried without filters. -/
def c8wQ : MemoryQuery := MemoryQuery.plain "x"

/-- C9/C10 witness input: protocol with one initialized backend. -/
def c9St : ProtocolState := ⟨true, ["s"], [⟨true, []⟩]⟩

/-! ## Access-bump equivalence (used for the stateful pagination claim) -/

/-- Two metadata objects that agree on every key except the two mutated by
the access-tracking side effect (`accessCount`, `lastAccessed`). -/
def metaEquiv (m m' : Meta) : Prop :=
  ∀ k, k ≠ "accessCount" → k ≠ "lastAccessed" → objGet m k = objGet m' k

/-- Two events equal in every field, with metadata equal up to the
access-tracking keys. -/
def evEquiv (e e' : MemoryEvent) : Prop :=
  e.id = e'.id ∧ e.type = e'.type ∧ e.memoryType = e'.memoryType ∧
  e.context = e'.context ∧ e.content = e'.content ∧
  e.timestamp = e'.timestamp ∧ e.ttl = e'.ttl ∧ metaEquiv e.metadata e'.metadata

/-- Scored candidates related pointwise: equivalent events, equal scores. -/
def scEquiv (p p' : Scored) : Prop :=
  evEquiv p.1 p'.1 ∧ p.2 = p'.2

/-- Map entries related pointwise: equal keys, equivalent events. -/
def entryEquiv (pr pr' : String × MemoryEvent) : Prop :=
  pr.1 = pr'.1 ∧ evEquiv pr.2 pr'.2

/-- Backend states that differ only by access-tracking bumps: same
`initialized` flag, entrywise-equivalent maps. -/
def stEquiv (s s' : BackendState) : Prop :=
  s.inited = s'.inited ∧ List.Forall₂ entryEquiv s.events s'.events

/-- The ids of a sequence of pages, concatenated in order. -/
def pagesIds (pages : List (List Scored)) : List String :=
  (pages.map idsOf).flatten

/-! ## Basic lemmas about the object and map primitives -/

theorem objGet_nil (k : String) : objGet [] k = none := rfl

theorem objGet_cons (p : String × MetaVal) (l : Meta) (k : String) :
    objGet (p :: l) k = if p.1 = k then some p.2 else objGet l k := by
  by_cases h : p.1 = k
  · simp [objGet, List.find?_cons_of_pos, h]
  · simp [objGet, List.find?_cons_of_neg, h]

theorem objGet_objSet_self (m : Meta) (k : String) (v : MetaVal) :
    objGet (objSet m k v) k = some v := by
  induction m with
  | nil => simp [objSet, objGet_cons]
  | cons p rest ih =>
    by_cases h : p.1 = k
    · simp [objSet, h, objGet_cons]
    · simp [objSet, h, objGet_cons, ih]

theorem objGet_objSet_ne (m : Meta) (k₁ k₂ : String) (v : MetaVal) (h : k₁ ≠ k₂) :
    objGet (objSet m k₁ v) k₂ = objGet m k₂ := by
  induction m with
  | nil => simp [objSet, objGet_cons, h]
  | cons p rest ih =>
    by_cases hp : p.1 = k₁
    · subst hp
      simp [objSet, objGet_cons, h, ih]
    · simp [objSet, hp, objGet_cons, ih]

theorem objGet_objMerge_of_none (base upd : Meta) (k : String)
    (h : objGet upd k = none) : objGet (objMerge base upd) k = objGet base k := by
  induction upd generalizing base with
  | nil => rfl
  | cons q rest ih =>
    rw [objGet_cons] at h
    by_cases hq : q.1 = k
    · simp [hq] at h
    · rw [if_neg hq] at h
      show objGet (objMerge (objSet base q.1 q.2) rest) k = objGet base k
      rw [ih (objSet base q.1 q.2) h, objGet_objSet_ne _ _ _ _ hq]

theorem mapGet_nil (k : String) : mapGet [] k = none := rfl

theorem mapGet_cons (p : String × MemoryEvent) (l : List (String × MemoryEvent)) (k : String) :
    mapGet (p :: l) k = if p.1 = k then some p.2 else mapGet l k := by
  by_cases h : p.1 = k
  · simp [mapGet, List.find?_cons_of_pos, h]
  · simp [mapGet, List.find?_cons_of_neg, h]

theorem mapGet_mapSet_self (m : List (String × MemoryEvent)) (k : String) (v : MemoryEvent) :
    mapGet (mapSet m k v) k = some v := by
  induction m with
  | nil => simp [mapSet, mapGet_cons]
  | cons p rest ih =>
    by_cases h : p.1 = k
    · simp [mapSet, h, mapGet_cons]
    · simp [mapSet, h, mapGet_cons, ih]

theorem mapGet_mapSet_ne (m : List (String × MemoryEvent)) (k₁ k₂ : String)
    (v : MemoryEvent) (h : k₁ ≠ k₂) : mapGet (mapSet m k₁ v) k₂ = mapGet m k₂ := by
  induction m with
  | nil => simp [mapSet, mapGet_cons, h]
  | cons p rest ih =>
    by_cases hp : p.1 = k₁
    · subst hp
      simp [mapSet, mapGet_cons, h, ih]
    · simp [mapSet, hp, mapGet_cons, ih]

theorem bumpMeta_accessCount (now : ℚ) (m : Meta) :
    objGet (bumpMeta now m) "accessCount" = some (jsIncr (objGet m "accessCount")) := by
  unfold bumpMeta
  rw [objGet_objSet_self, objGet_objSet_ne _ _ _ _ (by decide)]

theorem bumpMeta_lastAccessed (now : ℚ) (m : Meta) :
    objGet (bumpMeta now m) "lastAccessed" = some (MetaVal.date now) := by
  unfold bumpMeta
  rw [objGet_objSet_ne _ _ _ _ (by decide), objGet_objSet_self]

theorem bumpMeta_other (now : ℚ) (m : Meta) (k : String)
    (h1 : k ≠ "accessCount") (h2 : k ≠ "lastAccessed") :
    objGet (bumpMeta now m) k = objGet m k := by
  unfold bumpMeta
  rw [objGet_objSet_ne _ _ _ _ (Ne.symm h1), objGet_objSet_ne _ _ _ _ (Ne.symm h2)]

theorem foldl_if_add {α : Type} (c : ℚ) (P : α → Bool) (l : List α) (init : ℚ) :
    l.foldl (fun acc x => if P x then acc + c else acc) init
      = init + c * ((l.filter P).length : ℚ) := by
  induction l generalizing init with
  | nil => simp
  | cons x xs ih =>
    by_cases h : P x
    · simp only [List.foldl_cons, List.filter_cons, h, if_pos, ih]
      rw [List.length_cons]
      push_cast
      ring
    · simp only [List.foldl_cons, List.filter_cons, h, if_neg, ih]
      simp [h]

theorem scoreOf_eq_specScore (q : MemoryQuery) (e : MemoryEvent) :
    scoreOf (lowerChars q.query) e = specScore q e := by
  unfold scoreOf specScore
  cases hk : e.content.keywords <;> cases ht : e.content.tags <;>
    simp [foldl_if_add, hk, ht]

/-! ## Claim C1 — retrieval scoring and threshold -/

/-- C1 (amended): for a query without an exact-id lookup, `searchEvents`
keeps a candidate with attached score `sc` exactly when the candidate is a
stored event, `sc` is its score — 0.8 for a text hit plus 0.6 per keyword
hit plus 0.7 per tag hit — and that score is not below the effective
threshold, which is the query's threshold except that a missing threshold
**or an explicitly supplied threshold of 0** (falsy in JS) falls back to
0.5. -/
theorem mmp_c1_scoring_threshold (q : MemoryQuery) (s : BackendState)
    (e : MemoryEvent) (sc : ℚ) :
    (e, sc) ∈ searchEvents q s ↔
      (e ∈ s.events.map Prod.snd ∧ sc = specScore q e ∧
        effThreshold q.threshold ≤ specScore q e) := by
  unfold searchEvents
  rw [List.mem_filterMap]
  constructor
  · rintro ⟨a, ha, hfa⟩
    dsimp only at hfa
    by_cases h : effThreshold q.threshold ≤ scoreOf (lowerChars q.query) a
    · rw [if_pos h] at hfa
      obtain ⟨rfl, rfl⟩ : a = e ∧ scoreOf (lowerChars q.query) a = sc := by
        exact ⟨congrArg Prod.fst (Option.some.inj hfa),
               congrArg Prod.snd (Option.some.inj hfa)⟩
      rw [scoreOf_eq_specScore] at h ⊢
      exact ⟨ha, rfl, h⟩
    · rw [if_neg h] at hfa
      cases hfa
  · rintro ⟨he, rfl, hth⟩
    refine ⟨e, he, ?_⟩
    dsimp only
    rw [scoreOf_eq_specScore, if_pos hth]

unseal Rat.add Rat.mul Rat.inv Rat.sub in
/-- C1 counterexample: with an explicitly supplied threshold of 0, a
candidate whose score (0) is not below that threshold is nonetheless
discarded — the engine treats threshold 0 as absent and falls back to 0.5,
so the claim's "kept exactly when its score is not below the query's
threshold" fails. -/
theorem mmp_c1_cex :
    c1Q.threshold = some 0 ∧ specScore c1Q c1Ev = 0 ∧
    c1Ev ∈ c1S.events.map Prod.snd ∧ searchEvents c1Q c1S = [] := by decide

/-! ## Claim C4 — README retrieval scenario -/

unseal Rat.add Rat.mul Rat.inv Rat.sub in
/-- C4 counterexample: after storing the scenario record ("The user prefers
TypeScript over JavaScript", semantic, importance 0.8, tags
["preference", "programming"]) through the protocol-level store, a backend
retrieve with query "programming preferences" and the default threshold
returns the empty result set — the record scores 0, because a tag only
matches when the *whole lower-cased query* is a substring of the tag, and
"programming" does not contain "programming preferences". -/
theorem mmp_c4_cex :
    (mapGet c4B.events "mem-1").map
        (fun ev => specScore (MemoryQuery.plain "programming preferences") ev) = some 0 ∧
    (InMemoryBackend.retrieve 101 (MemoryQuery.plain "programming preferences")
        c4B).toOption.map (fun rp => rp.1.memories) = some [] := by decide

unseal Rat.add Rat.mul Rat.inv Rat.sub in
/-- C4 (amended): the stored scenario record is **not** returned for the
query "programming preferences" (see the counterexample); it is returned —
with score 0.7 ≥ 0.5, via the tag "programming" — exactly when the query
string is contained in the tag, e.g. for the query "programming". -/
theorem mmp_c4_tag_match :
    (InMemoryBackend.retrieve 101 (MemoryQuery.plain "programming") c4B).toOption.map
        (fun rp => rp.1.memories.map (fun p => (p.1.id, p.2)))
      = some [("mem-1", some (7/10))] ∧
    effThreshold none ≤ 7/10 := by decide

/-! ## Claims C9 and C10 — protocol-level store -/

theorem firstBadIdx_none_of_inited (bs : List BackendState)
    (hb : ∀ b ∈ bs, b.inited = true) : firstBadIdx bs = none := by
  induction bs with
  | nil => rfl
  | cons b rest ih =>
    have hbt : b.inited = true := hb b (List.mem_cons_self _ _)
    simp [firstBadIdx, hbt, ih (fun x hx => hb x (List.mem_cons_of_mem _ hx))]

theorem objGet_baseMetadata_accessCount (now : ℚ) :
    objGet (baseMetadata now) "accessCount" = some (MetaVal.num 0) := by
  simp [baseMetadata, objGet_cons]

theorem store_eq_of_inited (now : ℚ) (e : MemoryEvent) (s : BackendState)
    (hs : s.inited = true) :
    InMemoryBackend.store now e s
      = .ok { s with events := mapSet s.events e.id { e with metadata := bumpMeta now e.metadata } } := by
  simp [InMemoryBackend.store, hs]

theorem protocolStore_eq (now : ℚ) (freshId text mt sessionId : String)
    (mdOpt : Option Meta) (st : ProtocolState)
    (hinit : st.inited = true) (hsess : st.sessions.contains sessionId = true)
    (hfan : firstBadIdx st.backends = none) :
    MemoryProtocol.store now freshId text mt sessionId mdOpt st
      = ({ st with backends := st.backends.map (fun b =>
            { b with events := mapSet b.events
                              (buildEvent now freshId text mt sessionId mdOpt).id
                              (storedCopy now st.backends.length
                                (buildEvent now freshId text mt sessionId mdOpt)) }) },
         none) := by
  have hsess' : sessionId ∈ st.sessions := by simpa using hsess
  simp [MemoryProtocol.store, hinit, hsess', fanoutStore, hfan, storedCopy]

/-- C10: every record created through `MemoryProtocol.store` carries
`ttl = DEFAULT_TTL = 86400` seconds; the store interface takes no ttl
argument (visible in `MemoryProtocol.store`'s signature), so the caller can
neither supply a different ttl nor omit it, and the record stored in every
backend has `ttl = some 86400`. -/
theorem mmp_c10_default_ttl (now : ℚ) (freshId text mt sessionId : String)
    (mdOpt : Option Meta) (st : ProtocolState)
    (hinit : st.inited = true) (hsess : st.sessions.contains sessionId = true)
    (hb : ∀ b ∈ st.backends, b.inited = true) :
    DEFAULT_TTL = 86400 ∧
    (buildEvent now freshId text mt sessionId mdOpt).ttl = some DEFAULT_TTL ∧
    (MemoryProtocol.store now freshId text mt sessionId mdOpt st).2 = none ∧
    ∀ b' ∈ (MemoryProtocol.store now freshId text mt sessionId mdOpt st).1.backends,
      ∃ ev, mapGet b'.events freshId = some ev ∧ ev.ttl = some DEFAULT_TTL := by
  have hfan : firstBadIdx st.backends = none := firstBadIdx_none_of_inited _ hb
  have heq := protocolStore_eq now freshId text mt sessionId mdOpt st hinit hsess hfan
  refine ⟨rfl, rfl, ?_, ?_⟩
  · rw [heq]
  · intro b' hb'
    rw [heq] at hb'
    simp only [List.mem_map] at hb'
    obtain ⟨b, _, rfl⟩ := hb'
    exact ⟨_, mapGet_mapSet_self _ _ _, rfl⟩

unseal Rat.add Rat.mul Rat.inv Rat.sub in
/-- C10 witness: the hypotheses hold at a concrete single-backend protocol
state, and the store call succeeds there. -/
theorem mmp_c10_witness :
    (MemoryProtocol.store 5 "id1" "hello there" "semantic" "s" none c9St).2 = none :=
  (mmp_c10_default_ttl 5 "id1" "hello there" "semantic" "s" none c9St
    (by decide) (by decide) (by decide)).2.2.1

/-- C9: (i) the backend's `store` itself increments the stored record's
`accessCount` by 1 and stamps `lastAccessed` with the store time; (ii) a
record created through the protocol-level store with no caller-supplied
`accessCount` override (the default initialization is 0) therefore has
`accessCount = 1` in the backend immediately after storing, before any
retrieve has touched it (stated for a single registered backend — each
stored copy shares the event's metadata object, so with several backends
the shared count rises once per backend). -/
theorem mmp_c9_store_access_count :
    (∀ (now : ℚ) (e : MemoryEvent) (s : BackendState) (a : ℚ),
      s.inited = true → objGet e.metadata "accessCount" = some (MetaVal.num a) →
      ∃ s', InMemoryBackend.store now e s = .ok s' ∧
        ∃ ev, mapGet s'.events e.id = some ev ∧
          objGet ev.metadata "accessCount" = some (MetaVal.num (a + 1)) ∧
          objGet ev.metadata "lastAccessed" = some (MetaVal.date now)) ∧
    (∀ (now : ℚ) (freshId text mt sessionId : String) (mdOpt : Option Meta)
      (b : BackendState) (st : ProtocolState),
      st.inited = true → st.sessions.contains sessionId = true →
      st.backends = [b] → b.inited = true →
      objGet (mdOpt.getD []) "accessCount" = none →
      (MemoryProtocol.store now freshId text mt sessionId mdOpt st).2 = none ∧
      ∃ b', (MemoryProtocol.store now freshId text mt sessionId mdOpt st).1.backends = [b'] ∧
        ∃ ev, mapGet b'.events freshId = some ev ∧
          objGet ev.metadata "accessCount" = some (MetaVal.num 1) ∧
          objGet ev.metadata "lastAccessed" = some (MetaVal.date now)) := by
  constructor
  · intro now e s a hs ha
    refine ⟨_, store_eq_of_inited now e s hs, ?_⟩
    refine ⟨_, mapGet_mapSet_self _ _ _, ?_⟩
    constructor
    · show objGet (bumpMeta now e.metadata) "accessCount" = _
      rw [bumpMeta_accessCount, ha]
      rfl
    · exact bumpMeta_lastAccessed _ _
  · intro now freshId text mt sessionId mdOpt b st hinit hsess hbs hbinit hmd
    have hfan : firstBadIdx st.backends = none := by
      rw [hbs]
      simp [firstBadIdx, hbinit]
    have hacc : objGet (objMerge (baseMetadata now) (mdOpt.getD [])) "accessCount"
        = some (MetaVal.num 0) := by
      rw [objGet_objMerge_of_none _ _ _ hmd, objGet_baseMetadata_accessCount]
    have heq := protocolStore_eq now freshId text mt sessionId mdOpt st hinit hsess hfan
    rw [heq]
    refine ⟨rfl, ?_⟩
    rw [hbs]
    refine ⟨_, rfl, ?_⟩
    refine ⟨_, mapGet_mapSet_self _ _ _, ?_⟩
    have h1 : iterBump now ([b].length) (buildEvent now freshId text mt sessionId mdOpt).metadata
        = bumpMeta now (objMerge (baseMetadata now) (mdOpt.getD [])) := by
      simp [iterBump, buildEvent]
    constructor
    · show objGet (iterBump now ([b].length)
          (buildEvent now freshId text mt sessionId mdOpt).metadata) "accessCount" = _
      rw [h1, bumpMeta_accessCount, hacc]
      norm_num [jsIncr]
    · show objGet (iterBump now ([b].length)
          (buildEvent now freshId text mt sessionId mdOpt).metadata) "lastAccessed" = _
      rw [h1]
      exact bumpMeta_lastAccessed _ _

unseal Rat.add Rat.mul Rat.inv Rat.sub in
/-- C9 witness: a concrete single-backend protocol store yields
`accessCount = 1` on the stored record. -/
theorem mmp_c9_witness :
    (MemoryProtocol.store 6 "id2" "hello there" "semantic" "s" none c9St).2 = none :=
  ((mmp_c9_store_access_count).2 6 "id2" "hello there" "semantic" "s" none
    ⟨true, []⟩ c9St (by decide) (by decide) rfl (by decide) rfl).1

/-! ## Claim C2 — consolidation of records with equal fingerprints -/

theorem isNumVal_iff (v : Option MetaVal) :
    isNumVal v = true ↔ ∃ q, v = some (MetaVal.num q) := by
  cases v with
  | none => simp [isNumVal]
  | some w => cases w <;> simp [isNumVal]

theorem mergeIntoKept_importance (kept folded : MemoryEvent) :
    objGet (mergeIntoKept kept folded).metadata "importance"
      = some (jsImportanceBump (objGet kept.metadata "importance")) := by
  unfold mergeIntoKept
  dsimp only
  rw [objGet_objSet_ne _ _ _ _ (by decide), objGet_objSet_self]

theorem mergeIntoKept_accessCount (kept folded : MemoryEvent) :
    objGet (mergeIntoKept kept folded).metadata "accessCount"
      = some (jsAdd (objGet kept.metadata "accessCount")
                    (objGet folded.metadata "accessCount")) := by
  unfold mergeIntoKept
  dsimp only
  rw [objGet_objSet_self, objGet_objSet_ne _ _ _ _ (by decide)]

theorem consolidateGo_all_same (rest : List MemoryEvent) (kept : MemoryEvent) (h : ℤ)
    (hk : hashContent kept.content.text = h)
    (hr : ∀ e ∈ rest, hashContent e.content.text = h) :
    consolidateGo rest [kept] [h] = [rest.foldl mergeIntoKept kept] := by
  induction rest generalizing kept with
  | nil => rfl
  | cons e es ih =>
    have he : hashContent e.content.text = h := hr e (List.mem_cons_self _ _)
    have hfold : foldIntoFirst h e [kept] = [mergeIntoKept kept e] := by
      simp [foldIntoFirst, hk]
    have hkept' : hashContent (mergeIntoKept kept e).content.text = h := hk
    calc consolidateGo (e :: es) [kept] [h]
        = consolidateGo es (foldIntoFirst h e [kept]) [h] := by
          simp [consolidateGo, he]
      _ = consolidateGo es [mergeIntoKept kept e] [h] := by rw [hfold]
      _ = [es.foldl mergeIntoKept (mergeIntoKept kept e)] :=
          ih (mergeIntoKept kept e) hkept'
            (fun x hx => hr x (List.mem_cons_of_mem _ hx))
      _ = [(e :: es).foldl mergeIntoKept kept] := by rw [List.foldl_cons]

theorem foldl_merge_preserves (rest : List MemoryEvent) (kept : MemoryEvent) :
    (rest.foldl mergeIntoKept kept).id = kept.id ∧
    (rest.foldl mergeIntoKept kept).content = kept.content ∧
    (rest.foldl mergeIntoKept kept).timestamp = kept.timestamp := by
  induction rest generalizing kept with
  | nil => exact ⟨rfl, rfl, rfl⟩
  | cons e es ih => exact ih (mergeIntoKept kept e)

theorem foldl_merge_accessCount (rest : List MemoryEvent) (kept : MemoryEvent) (a : ℚ)
    (ha : objGet kept.metadata "accessCount" = some (MetaVal.num a))
    (hrest : ∀ e ∈ rest, isNumVal (objGet e.metadata "accessCount") = true) :
    objGet (rest.foldl mergeIntoKept kept).metadata "accessCount"
      = some (MetaVal.num (a + sumAcc rest)) := by
  induction rest generalizing kept a with
  | nil =>
    rw [List.foldl_nil, ha]
    norm_num [sumAcc]
  | cons e es ih =>
    obtain ⟨q, hq⟩ := (isNumVal_iff _).mp (hrest e (List.mem_cons_self _ _))
    have hk' : objGet (mergeIntoKept kept e).metadata "accessCount"
        = some (MetaVal.num (a + q)) := by
      rw [mergeIntoKept_accessCount, ha, hq]
      rfl
    rw [List.foldl_cons,
      ih (mergeIntoKept kept e) (a + q) hk' (fun x hx => hrest x (List.mem_cons_of_mem _ hx))]
    have hsum : sumAcc (e :: es) = q + sumAcc es := by
      simp [sumAcc, acOf, hq]
    rw [hsum]
    congr 2
    ring

theorem min_clamp_add (x c : ℚ) (hc : 0 ≤ c) :
    min 1 (min 1 (x + 1/10) + c) = min 1 (x + 1/10 + c) := by
  rcases le_total (x + 1/10) 1 with h | h
  · rw [min_eq_right h]
  · rw [min_eq_left h, min_eq_left (by linarith), min_eq_left (by linarith)]

theorem foldl_merge_importance (rest : List MemoryEvent) (kept : MemoryEvent) (imp : ℚ)
    (hi : objGet kept.metadata "importance" = some (MetaVal.num imp)) :
    objGet (rest.foldl mergeIntoKept kept).metadata "importance"
      = some (MetaVal.num
          (if rest.length = 0 then imp else min 1 (imp + (rest.length : ℚ)/10))) := by
  induction rest generalizing kept imp with
  | nil => simpa using hi
  | cons e es ih =>
    have hk' : objGet (mergeIntoKept kept e).metadata "importance"
        = some (MetaVal.num (min 1 (imp + 1/10))) := by
      rw [mergeIntoKept_importance, hi]
      rfl
    rw [List.foldl_cons, ih (mergeIntoKept kept e) (min 1 (imp + 1/10)) hk']
    rcases Nat.eq_zero_or_pos es.length with hlen | hlen
    · simp only [hlen, List.length_cons]
      norm_num
    · rw [if_neg (Nat.pos_iff_ne_zero.mp hlen), if_neg (by simp)]
      rw [min_clamp_add imp ((es.length : ℚ)/10) (by positivity)]
      congr 1
      rw [List.length_cons]
      push_cast
      ring

/-- C2: consolidating `N ≥ 1` records with equal content fingerprints and
numeric access counts `a₁..a_N` yields exactly one record — the first in
input order — whose `accessCount` is `a₁+…+a_N` and whose importance is
`min(1.0, original + 0.1·(N−1))`; in particular the merged importance never
exceeds 1.0.  (Importance is assumed within the data model's `[0,1]`
invariant; the count hypotheses say each record's `accessCount` is a
number.) -/
theorem mmp_c2_consolidate (s : BackendState) (e0 : MemoryEvent)
    (rest : List MemoryEvent) (a imp : ℚ)
    (hs : s.inited = true)
    (hsame : ∀ e ∈ rest, hashContent e.content.text = hashContent e0.content.text)
    (hA : objGet e0.metadata "accessCount" = some (MetaVal.num a))
    (hI : objGet e0.metadata "importance" = some (MetaVal.num imp))
    (hImp : imp ≤ 1)
    (hrest : ∀ e ∈ rest, isNumVal (objGet e.metadata "accessCount") = true) :
    ∃ r, InMemoryBackend.consolidate (e0 :: rest) s = .ok [r] ∧
      r.id = e0.id ∧ r.content = e0.content ∧ r.timestamp = e0.timestamp ∧
      objGet r.metadata "accessCount" = some (MetaVal.num (a + sumAcc rest)) ∧
      objGet r.metadata "importance"
        = some (MetaVal.num (min 1 (imp + (rest.length : ℚ)/10))) ∧
      min 1 (imp + (rest.length : ℚ)/10) ≤ 1 := by
  have hstep : InMemoryBackend.consolidate (e0 :: rest) s
      = .ok (consolidateGo rest [e0] [hashContent e0.content.text]) := by
    simp [InMemoryBackend.consolidate, hs, consolidateGo]
  rw [hstep, consolidateGo_all_same rest e0 _ rfl hsame]
  refine ⟨_, rfl, (foldl_merge_preserves rest e0).1,
    (foldl_merge_preserves rest e0).2.1, (foldl_merge_preserves rest e0).2.2,
    foldl_merge_accessCount rest e0 a hA hrest, ?_, min_le_left _ _⟩
  rw [foldl_merge_importance rest e0 imp hI]
  rcases Nat.eq_zero_or_pos rest.length with hlen | hlen
  · rw [if_pos hlen, hlen]
    norm_num [min_eq_right hImp]
  · rw [if_neg (Nat.pos_iff_ne_zero.mp hlen)]

unseal Rat.add Rat.mul Rat.inv Rat.sub in
/-- C2 witness: three records with identical text and access counts 1, 2, 3
and initial importance 0.5 consolidate to one record with `accessCount = 6`
and `importance = 0.7`. -/
theorem mmp_c2_witness :
    ∃ r, InMemoryBackend.consolidate [c2EvA, c2EvB, c2EvC] ⟨true, []⟩ = .ok [r] ∧
      objGet r.metadata "accessCount" = some (MetaVal.num 6) ∧
      objGet r.metadata "importance" = some (MetaVal.num (7/10)) := by
  obtain ⟨r, h1, _, _, _, h5, h6, _⟩ :=
    mmp_c2_consolidate ⟨true, []⟩ c2EvA [c2EvB, c2EvC] 1 (1/2) rfl
      (by decide) (by decide) (by decide) (by decide) (by decide)
  exact ⟨r, h1, h5.trans (by decide), h6.trans (by decide)⟩

/-! ## Claim C5 — backend update merge semantics -/

theorem update_eq_missing (now : ℚ) (id : String) (patch : EventPatch) (s : BackendState)
    (hs : s.inited = true) (hf : mapGet s.events id = none) :
    InMemoryBackend.update now id patch s = .error ("Event not found: " ++ id) := by
  simp [InMemoryBackend.update, hs, hf]

theorem update_eq_found (now : ℚ) (id : String) (patch : EventPatch) (s : BackendState)
    (old : MemoryEvent) (hs : s.inited = true) (hf : mapGet s.events id = some old) :
    InMemoryBackend.update now id patch s
      = .ok { s with events := mapSet s.events id (patchedEvent now old patch) } := by
  simp [InMemoryBackend.update, hs, hf, patchedEvent]

/-- C5 (amended): backend `update` fails with NotFound when no record with
the id exists; otherwise it merges field-by-field, replacing **every**
nested object wholesale — `metadata` included, so metadata keys absent from
the supplied metadata object are lost rather than preserved — then sets the
merged record's `metadata.updated` to the call time; records under other
ids are untouched. -/
theorem mmp_c5_update (now : ℚ) (id : String) (patch : EventPatch) (s : BackendState)
    (hs : s.inited = true) :
    (mapGet s.events id = none →
      InMemoryBackend.update now id patch s = .error ("Event not found: " ++ id)) ∧
    (∀ old, mapGet s.events id = some old →
      ∃ s', InMemoryBackend.update now id patch s = .ok s' ∧
        (∃ merged, mapGet s'.events id = some merged ∧
          merged.id = patch.id.getD old.id ∧
          merged.memoryType = patch.memoryType.getD old.memoryType ∧
          merged.content = patch.content.getD old.content ∧
          merged.timestamp = patch.timestamp.getD old.timestamp ∧
          (∀ k, k ≠ "updated" →
            objGet merged.metadata k = objGet (patch.metadata.getD old.metadata) k) ∧
          objGet merged.metadata "updated" = some (MetaVal.date now)) ∧
        ∀ k', k' ≠ id → mapGet s'.events k' = mapGet s.events k') := by
  refine ⟨fun hf => update_eq_missing now id patch s hs hf, ?_⟩
  intro old hf
  refine ⟨_, update_eq_found now id patch s old hs hf, ?_, ?_⟩
  · refine ⟨patchedEvent now old patch, mapGet_mapSet_self _ _ _, rfl, rfl, rfl, rfl, ?_, ?_⟩
    · intro k hk
      exact objGet_objSet_ne _ _ _ _ (Ne.symm hk)
    · exact objGet_objSet_self _ _ _
  · intro k' hk'
    exact mapGet_mapSet_ne _ _ _ _ (Ne.symm hk')

unseal Rat.add Rat.mul Rat.inv Rat.sub in
/-- C5 counterexample: updating a record with a partial metadata object
`{importance: 0.2}` erases the stored `source` key — it is **not**
preserved, refuting the claim's key-by-key metadata merge. -/
theorem mmp_c5_cex :
    objGet c5Old.metadata "source" = some (MetaVal.str "user") ∧
    c5Patch.metadata = some [("importance", MetaVal.num (2/10))] ∧
    (InMemoryBackend.update 7 "m" c5Patch c5S).toOption.map
        (fun s' => (mapGet s'.events "m").map (fun ev => objGet ev.metadata "source"))
      = some (some none) := by decide

/-- C5 witness: the amended theorem applied at a concrete input (absent id
yields NotFound). -/
theorem mmp_c5_witness :
    InMemoryBackend.update 7 "zz" EventPatch.empty c5S = .error "Event not found: zz" :=
  (mmp_c5_update 7 "zz" EventPatch.empty c5S rfl).1 (by decide)

/-! ## Claim C6 — multi-backend update/delete dispatch -/

theorem isSome_mapGet (m : List (String × MemoryEvent)) (k : String) :
    (mapGet m k).isSome = (m.find? (fun p => p.1 = k)).isSome := by
  simp [mapGet]

theorem delete_eq_found (id : String) (b : BackendState)
    (hbi : b.inited = true) (hf : (mapGet b.events id).isSome = true) :
    InMemoryBackend.delete id b = .ok { b with events := (mapDelete b.events id).1 } := by
  rw [isSome_mapGet] at hf
  simp [InMemoryBackend.delete, hbi, mapDelete, hf]

theorem delete_eq_missing (id : String) (b : BackendState)
    (hbi : b.inited = true) (hf : (mapGet b.events id).isSome = false) :
    InMemoryBackend.delete id b = .error ("Event not found: " ++ id) := by
  rw [isSome_mapGet] at hf
  simp [InMemoryBackend.delete, hbi, mapDelete, hf]

theorem updAll_none_iff (now : ℚ) (id : String) (patch : EventPatch)
    (bs : List BackendState) (hb : ∀ b ∈ bs, b.inited = true) :
    (updAll now id patch bs).2 = none ↔ ∀ b ∈ bs, (mapGet b.events id).isSome = true := by
  induction bs with
  | nil => simp [updAll]
  | cons b rest ih =>
    have hbi : b.inited = true := hb b (List.mem_cons_self _ _)
    have ih' := ih (fun x hx => hb x (List.mem_cons_of_mem _ hx))
    cases hf : mapGet b.events id with
    | none =>
      rw [show updAll now id patch (b :: rest) = (b :: rest, some ("Event not found: " ++ id))
        from by simp [updAll, update_eq_missing now id patch b hbi hf]]
      simp [List.forall_mem_cons, hf]
    | some old =>
      have hup := update_eq_found now id patch b old hbi hf
      rw [show (updAll now id patch (b :: rest)).2 = (updAll now id patch rest).2
        from by simp [updAll, hup]]
      rw [List.forall_mem_cons, ih']
      simp [hf]

theorem delAll_none_iff (id : String) (bs : List BackendState)
    (hb : ∀ b ∈ bs, b.inited = true) :
    (delAll id bs).2 = none ↔ ∀ b ∈ bs, (mapGet b.events id).isSome = true := by
  induction bs with
  | nil => simp [delAll]
  | cons b rest ih =>
    have hbi : b.inited = true := hb b (List.mem_cons_self _ _)
    have ih' := ih (fun x hx => hb x (List.mem_cons_of_mem _ hx))
    cases hf : (mapGet b.events id).isSome with
    | false =>
      rw [show delAll id (b :: rest) = (b :: rest, some ("Event not found: " ++ id))
        from by simp [delAll, delete_eq_missing id b hbi hf]]
      simp [List.forall_mem_cons, hf]
    | true =>
      have hdel := delete_eq_found id b hbi hf
      rw [show (delAll id (b :: rest)).2 = (delAll id rest).2
        from by simp [delAll, hdel]]
      rw [List.forall_mem_cons, ih']
      simp [hf]

/-- C6 (amended): with every backend initialized, a protocol-level `update`
or `delete` succeeds **iff every** registered backend holds a record with
the given id — the loop fails with NotFound as soon as one backend lacks
the id (with earlier backends already modified and later ones untouched),
not only when no backend holds it. -/
theorem mmp_c6_dispatch (now : ℚ) (id : String) (patch : EventPatch)
    (sessionId : String) (st : ProtocolState)
    (h1 : st.inited = true) (h2 : st.sessions.contains sessionId = true)
    (h3 : ∀ b ∈ st.backends, b.inited = true) :
    ((MemoryProtocol.update now id patch sessionId st).2 = none ↔
      ∀ b ∈ st.backends, (mapGet b.events id).isSome = true) ∧
    ((MemoryProtocol.delete id sessionId st).2 = none ↔
      ∀ b ∈ st.backends, (mapGet b.events id).isSome = true) := by
  have h2' : sessionId ∈ st.sessions := by simpa using h2
  constructor
  · rw [show (MemoryProtocol.update now id patch sessionId st).2
        = (updAll now id patch st.backends).2
      from by simp [MemoryProtocol.update, h1, h2']]
    exact updAll_none_iff now id patch st.backends h3
  · rw [show (MemoryProtocol.delete id sessionId st).2 = (delAll id st.backends).2
      from by simp [MemoryProtocol.delete, h1, h2']]
    exact delAll_none_iff id st.backends h3

unseal Rat.add Rat.mul Rat.inv Rat.sub in
/-- C6 counterexample: with two registered backends of which only the
second holds record "m", both `update` and `delete` fail with NotFound —
and the holding backend is left untouched — although the claim says the
call succeeds (and applies) when at least one backend holds the id. -/
theorem mmp_c6_cex :
    (mapGet c6B2.events "m").isSome = true ∧
    (MemoryProtocol.update 9 "m" EventPatch.empty "s" c6St).2
      = some "Event not found: m" ∧
    (MemoryProtocol.update 9 "m" EventPatch.empty "s" c6St).1.backends = [c6B1, c6B2] ∧
    (MemoryProtocol.delete "m" "s" c6St).2 = some "Event not found: m" := by decide

/-- C6 witness: the amended theorem applied at a concrete input — with a
single backend holding "m", the dispatcher's update succeeds. -/
theorem mmp_c6_witness :
    (MemoryProtocol.update 9 "m" EventPatch.empty "s" c6WSt).2 = none :=
  (mmp_c6_dispatch 9 "m" EventPatch.empty "s" c6WSt rfl (by decide)
    (by decide)).1.mpr (by decide)

/-! ## Claim C7 — pagination slice and totalCount -/

theorem retrieve_eq (now : ℚ) (q : MemoryQuery) (s : BackendState)
    (hs : s.inited = true) :
    InMemoryBackend.retrieve now q s
      = .ok ({ memories := pageOf q s,
               totalCount := (sortedFiltered q s).length,
               query := q },
             { s with events := bumpedEvents now (pageOf q s) s.events }) := by
  simp [InMemoryBackend.retrieve, hs, sortedFiltered, pageOf, bumpedEvents]

/-- C7 (amended): `retrieve` returns the slice
`[offset, offset + effectiveLimit)` of the sorted, filtered candidate set
and `totalCount` is the filtered set's size before slicing, where the
effective limit is the supplied limit except that a missing limit — **or an
explicit limit of 0** (falsy in JS) — falls back to
`DEFAULT_SEARCH_LIMIT = 10`; in particular, `limit = 5`, `offset = 0` over
3 matching records returns all 3 with `totalCount = 3` (see the witness). -/
theorem mmp_c7_pagination (now : ℚ) (q : MemoryQuery) (s : BackendState)
    (res : MemorySearchResult) (s' : BackendState)
    (h : InMemoryBackend.retrieve now q s = .ok (res, s')) :
    res.totalCount = (sortedFiltered q s).length ∧
    res.memories.length = min (effLimit q.limit) (res.totalCount - q.offset.getD 0) ∧
    (∀ i, i < effLimit q.limit →
      res.memories[i]? = (sortedFiltered q s)[q.offset.getD 0 + i]?) ∧
    (∀ i, effLimit q.limit ≤ i → res.memories[i]? = none) := by
  have hs : s.inited = true := by
    by_contra hc
    rw [Bool.not_eq_true] at hc
    simp [InMemoryBackend.retrieve, hc] at h
  rw [retrieve_eq now q s hs] at h
  obtain ⟨hres, -⟩ := Prod.mk.inj (Except.ok.inj h)
  subst hres
  refine ⟨rfl, ?_, ?_, ?_⟩
  · simp [pageOf, List.length_take, List.length_drop]
  · intro i hi
    show (pageOf q s)[i]? = _
    rw [pageOf, List.getElem?_take_of_lt hi, List.getElem?_drop]
  · intro i hi
    apply List.getElem?_eq_none
    show (pageOf q s).length ≤ i
    rw [pageOf, List.length_take]
    omega

unseal Rat.add Rat.mul Rat.inv Rat.sub in
/-- C7 counterexample: with an explicitly supplied `limit = 0` the claim's
slice `[0, 0)` is empty, yet `retrieve` returns a record — the engine
treats limit 0 as absent and uses `DEFAULT_SEARCH_LIMIT`. -/
theorem mmp_c7_cex :
    c7Q.limit = some 0 ∧
    (InMemoryBackend.retrieve 3 c7Q c7S).toOption.map
        (fun rp => rp.1.memories.map (fun p => p.1.id)) = some ["a"] := by decide

unseal Rat.add Rat.mul Rat.inv Rat.sub in
/-- C7 witness: the amended theorem applied at a concrete backend with 3
matching records and `limit = 5`, `offset = 0` — all 3 are returned and
`totalCount = 3`. -/
theorem mmp_c7_witness :
    c7wPair.1.totalCount = 3 ∧ c7wPair.1.memories.length = 3 := by
  have h := mmp_c7_pagination 9 c7wQ c7wS c7wPair.1 c7wPair.2 rfl
  refine ⟨h.1.trans (by decide), ?_⟩
  rw [h.2.1, h.1]
  decide

/-! ## Membership, permutation and uniqueness lemmas for the retrieve
pipeline -/

theorem searchEvents_eq (q : MemoryQuery) (s : BackendState) :
    searchEvents q s
      = ((s.events.map Prod.snd).filter
          (fun e => decide (effThreshold q.threshold ≤ scoreOf (lowerChars q.query) e))).map
          (fun e => (e, scoreOf (lowerChars q.query) e)) := by
  unfold searchEvents
  generalize s.events.map Prod.snd = l
  induction l with
  | nil => rfl
  | cons e es ih =>
    by_cases h : effThreshold q.threshold ≤ scoreOf (lowerChars q.query) e <;>
      simp [List.filterMap_cons, List.filter_cons, h, ih]

theorem orderedIns_perm (x : Scored) (l : List Scored) :
    (orderedIns x l).Perm (x :: l) := by
  induction l with
  | nil => exact List.Perm.refl _
  | cons y ys ih =>
    unfold orderedIns
    by_cases h : sortRel x y = true
    · rw [if_pos h]
    · rw [if_neg h]
      exact (ih.cons y).trans (List.Perm.swap x y ys)

theorem isort_perm (l : List Scored) : (isort l).Perm l := by
  induction l with
  | nil => exact List.Perm.refl _
  | cons x xs ih =>
    exact (orderedIns_perm x (isort xs)).trans (ih.cons x)

theorem sortResults_perm (l : List Scored) : (sortResults l).Perm l :=
  isort_perm l

theorem stageTypes_sublist (l : List Scored) (q : MemoryQuery) :
    (stageTypes l q).Sublist l := by
  unfold stageTypes
  cases q.memoryTypes with
  | none => exact List.Sublist.refl l
  | some ts =>
    dsimp only
    by_cases h : 0 < ts.length
    · rw [if_pos h]; exact List.filter_sublist l
    · rw [if_neg h]

theorem stageTiers_sublist (l : List Scored) (q : MemoryQuery) :
    (stageTiers l q).Sublist l := by
  unfold stageTiers
  cases q.storageTiers with
  | none => exact List.Sublist.refl l
  | some ts =>
    dsimp only
    by_cases h : 0 < ts.length
    · rw [if_pos h]; exact List.filter_sublist l
    · rw [if_neg h]

theorem stageTime_sublist (l : List Scored) (q : MemoryQuery) :
    (stageTime l q).Sublist l := by
  unfold stageTime
  cases q.timeRange with
  | none => exact List.Sublist.refl l
  | some tr => exact List.filter_sublist l

theorem stageFilters_sublist (l : List Scored) (q : MemoryQuery) :
    (stageFilters l q).Sublist l := by
  unfold stageFilters
  cases q.filters with
  | none => exact List.Sublist.refl l
  | some fs => exact List.filter_sublist l

theorem applyFilters_sublist (l : List Scored) (q : MemoryQuery) :
    (applyFilters l q).Sublist l :=
  (stageFilters_sublist _ _).trans ((stageTime_sublist _ _).trans
    ((stageTiers_sublist _ _).trans (stageTypes_sublist _ _)))

theorem mapGet_of_mem_key (m : List (String × MemoryEvent))
    (hnd : (m.map Prod.fst).Nodup) (pr : String × MemoryEvent) (hpr : pr ∈ m) :
    mapGet m pr.1 = some pr.2 := by
  induction m with
  | nil => cases hpr
  | cons x xs ih =>
    rw [List.map_cons, List.nodup_cons] at hnd
    rcases List.mem_cons.mp hpr with rfl | hh
    · rw [mapGet_cons, if_pos rfl]
    · rw [mapGet_cons, if_neg ?_]
      · exact ih hnd.2 hh
      · intro he
        exact hnd.1 (he ▸ List.mem_map.mpr ⟨pr, hh, rfl⟩)

theorem mapGet_of_mem_snd (s : BackendState) (hwf : WFState s) (e : MemoryEvent)
    (he : e ∈ s.events.map Prod.snd) : mapGet s.events e.id = some e := by
  obtain ⟨pr, hpr, rfl⟩ := List.mem_map.mp he
  rw [(hwf.2 pr hpr).1]
  exact mapGet_of_mem_key _ hwf.1 pr hpr

theorem mem_snd_of_mapGet (m : List (String × MemoryEvent)) (k : String)
    (e : MemoryEvent) (h : mapGet m k = some e) : e ∈ m.map Prod.snd := by
  unfold mapGet at h
  obtain ⟨pr, hfind, hpr2⟩ := Option.map_eq_some'.mp h
  exact List.mem_map.mpr ⟨pr, List.mem_of_find?_eq_some hfind, hpr2⟩

theorem mem_candidatesOf_snd (q : MemoryQuery) (s : BackendState) (p : Scored)
    (hp : p ∈ candidatesOf q s) : p.1 ∈ s.events.map Prod.snd := by
  have hsearch : ∀ x : Scored,
      x ∈ (searchEvents q s).map (fun pr => (pr.1, some pr.2)) →
      x.1 ∈ s.events.map Prod.snd := by
    intro x hx
    obtain ⟨pr, hpr, rfl⟩ := List.mem_map.mp hx
    rw [searchEvents_eq] at hpr
    obtain ⟨e, he, rfl⟩ := List.mem_map.mp hpr
    exact List.mem_of_mem_filter he
  unfold candidatesOf at hp
  cases hqid : q.id with
  | none =>
    rw [hqid] at hp
    exact hsearch p hp
  | some i =>
    rw [hqid] at hp
    dsimp only at hp
    by_cases hie : i.isEmpty
    · rw [if_pos hie] at hp
      exact hsearch p hp
    · rw [if_neg hie] at hp
      cases hget : mapGet s.events i with
      | none => rw [hget] at hp; cases hp
      | some e =>
        rw [hget] at hp
        rcases List.mem_singleton.mp hp with rfl
        exact mem_snd_of_mapGet _ _ _ hget

theorem mem_candidatesOf_mapGet (q : MemoryQuery) (s : BackendState)
    (hwf : WFState s) (p : Scored) (hp : p ∈ candidatesOf q s) :
    mapGet s.events p.1.id = some p.1 :=
  mapGet_of_mem_snd s hwf p.1 (mem_candidatesOf_snd q s p hp)

theorem mem_sortedFiltered_candidates (q : MemoryQuery) (s : BackendState)
    (p : Scored) (hp : p ∈ sortedFiltered q s) : p ∈ candidatesOf q s :=
  (applyFilters_sublist _ _).subset ((sortResults_perm _).mem_iff.mp hp)

theorem mem_page_mapGet (q : MemoryQuery) (s : BackendState) (hwf : WFState s)
    (p : Scored) (hp : p ∈ pageOf q s) : mapGet s.events p.1.id = some p.1 :=
  mem_candidatesOf_mapGet q s hwf p
    (mem_sortedFiltered_candidates q s p
      (List.mem_of_mem_drop (List.mem_of_mem_take hp)))

theorem idsOf_candidates_nodup (q : MemoryQuery) (s : BackendState)
    (hwf : WFState s) : (idsOf (candidatesOf q s)).Nodup := by
  have hkeys : (s.events.map Prod.snd).map (fun e => e.id) = s.events.map Prod.fst := by
    rw [List.map_map]
    exact List.map_congr_left (fun pr hpr => (hwf.2 pr hpr).1)
  have hsnd : ((s.events.map Prod.snd).map (fun e => e.id)).Nodup := by
    rw [hkeys]; exact hwf.1
  have hsearch : (idsOf ((searchEvents q s).map (fun pr => (pr.1, some pr.2)))).Nodup := by
    unfold idsOf
    rw [searchEvents_eq, List.map_map, List.map_map]
    exact hsnd.sublist ((List.filter_sublist _).map _)
  unfold candidatesOf
  cases q.id with
  | none => exact hsearch
  | some i =>
    dsimp only
    by_cases hie : i.isEmpty
    · rw [if_pos hie]; exact hsearch
    · rw [if_neg hie]
      cases mapGet s.events i with
      | none => exact List.nodup_nil
      | some e => exact List.nodup_singleton _

theorem idsOf_page_nodup (q : MemoryQuery) (s : BackendState) (hwf : WFState s) :
    (idsOf (pageOf q s)).Nodup := by
  have h1 : (idsOf (sortedFiltered q s)).Nodup := by
    have hperm : (idsOf (sortedFiltered q s)).Perm (idsOf (applyFilters (candidatesOf q s) q)) :=
      (sortResults_perm _).map _
    have h2 : (idsOf (applyFilters (candidatesOf q s) q)).Nodup :=
      (idsOf_candidates_nodup q s hwf).sublist ((applyFilters_sublist _ _).map _)
    exact hperm.nodup_iff.mpr h2
  exact h1.sublist (((List.take_sublist _ _).trans (List.drop_sublist _ _)).map _)

/-! ## Claim C3 — access-tracking side effect and the returned page -/

/-- The bumped form of a stored event. -/
theorem mapGet_bumpAccess (now : ℚ) (m : List (String × MemoryEvent)) (id k : String) :
    mapGet (bumpAccess now m id) k
      = if k = id then
          (mapGet m k).map (fun e => { e with metadata := bumpMeta now e.metadata })
        else mapGet m k := by
  induction m with
  | nil =>
    by_cases hk : k = id <;> simp [bumpAccess, mapGet, hk]
  | cons p rest ih =>
    unfold bumpAccess at ih ⊢
    rw [List.map_cons]
    by_cases hpid : p.1 = id
    · rw [if_pos hpid]
      by_cases hpk : p.1 = k
      · rw [mapGet_cons, mapGet_cons]
        dsimp only
        rw [if_pos hpk, if_pos hpk, if_pos (by rw [← hpk, hpid])]
        rfl
      · rw [mapGet_cons, mapGet_cons]
        dsimp only
        rw [if_neg hpk, if_neg hpk, ih]
    · rw [if_neg hpid]
      by_cases hpk : p.1 = k
      · rw [mapGet_cons, mapGet_cons, if_pos hpk, if_pos hpk,
          if_neg (by rw [← hpk]; exact fun hc => hpid hc)]
      · rw [mapGet_cons, mapGet_cons, if_neg hpk, if_neg hpk, ih]

theorem mapGet_bumpedEvents_not_mem (now : ℚ) (ps : List Scored)
    (m : List (String × MemoryEvent)) (id : String) (h : id ∉ idsOf ps) :
    mapGet (bumpedEvents now ps m) id = mapGet m id := by
  induction ps generalizing m with
  | nil => rfl
  | cons x xs ih =>
    have hne : id ≠ x.1.id := fun hc => h (by rw [hc]; exact List.mem_cons_self _ _)
    have hrest : id ∉ idsOf xs := fun hc => h (List.mem_cons_of_mem _ hc)
    show mapGet (bumpedEvents now xs (bumpAccess now m x.1.id)) id = mapGet m id
    rw [ih _ hrest, mapGet_bumpAccess, if_neg hne]

theorem mapGet_bumpedEvents_mem (now : ℚ) (ps : List Scored)
    (m : List (String × MemoryEvent)) (hnd : (idsOf ps).Nodup)
    (p : Scored) (hp : p ∈ ps) :
    mapGet (bumpedEvents now ps m) p.1.id
      = (mapGet m p.1.id).map (fun e => { e with metadata := bumpMeta now e.metadata }) := by
  induction ps generalizing m with
  | nil => cases hp
  | cons x xs ih =>
    rw [idsOf, List.map_cons, List.nodup_cons] at hnd
    rcases List.mem_cons.mp hp with rfl | hh
    · show mapGet (bumpedEvents now xs (bumpAccess now m p.1.id)) p.1.id = _
      rw [mapGet_bumpedEvents_not_mem now xs _ _ hnd.1,
        mapGet_bumpAccess, if_pos rfl]
    · have hne : p.1.id ≠ x.1.id := by
        intro hc
        exact hnd.1 (hc ▸ List.mem_map.mpr ⟨p, hh, rfl⟩)
      show mapGet (bumpedEvents now xs (bumpAccess now m x.1.id)) p.1.id = _
      rw [ih _ hnd.2 hh, mapGet_bumpAccess, if_neg hne]

theorem wf_accessCount_of_mapGet (s : BackendState) (hwf : WFState s)
    (k : String) (e : MemoryEvent) (h : mapGet s.events k = some e) :
    ∃ a, objGet e.metadata "accessCount" = some (MetaVal.num a) := by
  unfold mapGet at h
  obtain ⟨pr, hfind, hpr2⟩ := Option.map_eq_some'.mp h
  have hm := List.mem_of_find?_eq_some hfind
  have hnum := (hwf.2 pr hm).2
  rw [hpr2] at hnum
  exact (isNumVal_iff _).mp hnum

/-- C3 (amended): after every `retrieve`, each record of the returned page
has its `accessCount` in the backend's stored copy incremented by exactly 1
and its `lastAccessed` set to the call time, and records outside the page
are untouched; but the record object handed back to the caller is a
*shallow* copy sharing its `metadata` object with the stored copy, so the
returned record *does* reflect the increment — it is not a pre-increment
snapshot. -/
theorem mmp_c3_access_tracking (now : ℚ) (q : MemoryQuery) (s : BackendState)
    (res : MemorySearchResult) (s' : BackendState)
    (hwf : WFState s)
    (h : InMemoryBackend.retrieve now q s = .ok (res, s')) :
    (∀ p ∈ res.memories, ∃ a : ℚ,
      objGet p.1.metadata "accessCount" = some (MetaVal.num a) ∧
      mapGet s.events p.1.id = some p.1 ∧
      ∃ st, mapGet s'.events p.1.id = some st ∧
        st.metadata = bumpMeta now p.1.metadata ∧
        objGet st.metadata "accessCount" = some (MetaVal.num (a + 1)) ∧
        objGet st.metadata "lastAccessed" = some (MetaVal.date now) ∧
        objGet (observedEvent s' p).metadata "accessCount" = some (MetaVal.num (a + 1))) ∧
    (∀ id, id ∉ idsOf res.memories → mapGet s'.events id = mapGet s.events id) := by
  have hs : s.inited = true := by
    by_contra hc
    rw [Bool.not_eq_true] at hc
    simp [InMemoryBackend.retrieve, hc] at h
  rw [retrieve_eq now q s hs] at h
  obtain ⟨hres, hs'⟩ := Prod.mk.inj (Except.ok.inj h)
  subst hres
  subst hs'
  constructor
  · intro p hp
    have hmem : mapGet s.events p.1.id = some p.1 := mem_page_mapGet q s hwf p hp
    obtain ⟨a, ha⟩ := wf_accessCount_of_mapGet s hwf _ _ hmem
    refine ⟨a, ha, hmem, ?_⟩
    have hbump : mapGet (bumpedEvents now (pageOf q s) s.events) p.1.id
        = some { p.1 with metadata := bumpMeta now p.1.metadata } := by
      rw [mapGet_bumpedEvents_mem now _ _ (idsOf_page_nodup q s hwf) p hp, hmem]
      rfl
    refine ⟨_, hbump, rfl, ?_, ?_, ?_⟩
    · show objGet (bumpMeta now p.1.metadata) "accessCount" = _
      rw [bumpMeta_accessCount, ha]
      rfl
    · exact bumpMeta_lastAccessed _ _
    · unfold observedEvent
      rw [hbump]
      show objGet (bumpMeta now p.1.metadata) "accessCount" = _
      rw [bumpMeta_accessCount, ha]
      rfl
  · intro id hid
    exact mapGet_bumpedEvents_not_mem now _ _ _ hid

unseal Rat.add Rat.mul Rat.inv Rat.sub in
/-- C3 counterexample: a stored record with `accessCount = 5` is retrieved;
the stored copy rises to 6, and the record returned to the caller — whose
`metadata` is the same object — also reads 6, not the pre-increment
snapshot value 5 the claim promises. -/
theorem mmp_c3_cex :
    (mapGet c3S.events "a").map (fun e => objGet e.metadata "accessCount")
      = some (some (MetaVal.num 5)) ∧
    c3Run.toOption.map (fun rp =>
        rp.1.memories.map (fun p => objGet (observedEvent rp.2 p).metadata "accessCount"))
      = some [some (MetaVal.num 6)] ∧
    c3Run.toOption.map (fun rp =>
        (mapGet rp.2.events "a").map (fun e => objGet e.metadata "accessCount"))
      = some (some (some (MetaVal.num 6))) := by decide

unseal Rat.add Rat.mul Rat.inv Rat.sub in
/-- C3 witness: the amended theorem applied at a concrete retrieve call
(the frame part: a record outside the page is untouched). -/
theorem mmp_c3_witness :
    mapGet c3wPair.2.events "zz" = mapGet c7S.events "zz" := by
  have h := mmp_c3_access_tracking 50 (MemoryQuery.plain "x") c7S
    c3wPair.1 c3wPair.2 (by decide) rfl
  exact h.2 "zz" (by decide)

/-! ## Claim C8 — congruence of the retrieve pipeline under access bumps -/

theorem forall₂_filter_congr {α β : Type} {R : α → β → Prop} (p : α → Bool) (p' : β → Bool)
    (hpp : ∀ a b, R a b → p a = p' b) :
    ∀ {l : List α} {l' : List β}, List.Forall₂ R l l' →
      List.Forall₂ R (l.filter p) (l'.filter p') := by
  intro l l' h
  induction h with
  | nil => exact List.Forall₂.nil
  | cons hab htl ih =>
    rename_i a b l₁ l₂
    rw [List.filter_cons, List.filter_cons]
    have hpq := hpp a b hab
    by_cases hc : p a = true
    · rw [if_pos hc, if_pos (hpq ▸ hc)]
      exact List.Forall₂.cons hab ih
    · rw [if_neg hc, if_neg (hpq ▸ hc)]
      exact ih

theorem forall₂_map_congr {α β γ δ : Type} {R : α → β → Prop} {S : γ → δ → Prop}
    (f : α → γ) (g : β → δ) (hfg : ∀ a b, R a b → S (f a) (g b)) :
    ∀ {l : List α} {l' : List β}, List.Forall₂ R l l' →
      List.Forall₂ S (l.map f) (l'.map g) := by
  intro l l' h
  induction h with
  | nil => exact List.Forall₂.nil
  | cons hab htl ih => exact List.Forall₂.cons (hfg _ _ hab) ih

theorem forall₂_map_right {α : Type} {R : α → α → Prop} (f : α → α)
    (hf : ∀ a b, R a b → R a (f b)) :
    ∀ {l l' : List α}, List.Forall₂ R l l' → List.Forall₂ R l (l'.map f) := by
  intro l l' h
  induction h with
  | nil => exact List.Forall₂.nil
  | cons hab htl ih => exact List.Forall₂.cons (hf _ _ hab) ih

theorem forall₂_eq_of_ids {l l' : List Scored}
    (h : List.Forall₂ scEquiv l l') : idsOf l = idsOf l' := by
  unfold idsOf
  induction h with
  | nil => rfl
  | cons hab htl ih =>
    rw [List.map_cons, List.map_cons, ih, hab.1.1]

theorem metaEquiv_objGet {m m' : Meta} (h : metaEquiv m m') (k : String)
    (h1 : k ≠ "accessCount") (h2 : k ≠ "lastAccessed") :
    objGet m k = objGet m' k := h k h1 h2

theorem scoreOf_congr (ql : List Char) {e e' : MemoryEvent} (h : evEquiv e e') :
    scoreOf ql e = scoreOf ql e' := by
  unfold scoreOf
  rw [h.2.2.2.2.1]

theorem searchEvents_congr (q : MemoryQuery) {s s' : BackendState}
    (h : List.Forall₂ entryEquiv s.events s'.events) :
    List.Forall₂ (fun (x y : MemoryEvent × ℚ) => evEquiv x.1 y.1 ∧ x.2 = y.2)
      (searchEvents q s) (searchEvents q s') := by
  rw [searchEvents_eq, searchEvents_eq]
  have hsnd : List.Forall₂ evEquiv (s.events.map Prod.snd) (s'.events.map Prod.snd) :=
    forall₂_map_congr Prod.snd Prod.snd (fun a b hab => hab.2) h
  have hfil := forall₂_filter_congr
    (fun e => decide (effThreshold q.threshold ≤ scoreOf (lowerChars q.query) e))
    (fun e => decide (effThreshold q.threshold ≤ scoreOf (lowerChars q.query) e))
    (fun a b hab => by dsimp only; rw [scoreOf_congr (lowerChars q.query) hab]) hsnd
  exact forall₂_map_congr _ _
    (fun a b hab => ⟨hab, by rw [scoreOf_congr (lowerChars q.query) hab]⟩) hfil

theorem mapGet_congr {m m' : List (String × MemoryEvent)}
    (h : List.Forall₂ entryEquiv m m') (i : String) :
    (mapGet m i = none ∧ mapGet m' i = none) ∨
    (∃ e e', mapGet m i = some e ∧ mapGet m' i = some e' ∧ evEquiv e e') := by
  induction h with
  | nil => exact Or.inl ⟨rfl, rfl⟩
  | cons hab htl ih =>
    rename_i a b l₁ l₂
    rw [mapGet_cons, mapGet_cons]
    by_cases hk : a.1 = i
    · rw [if_pos hk, if_pos (hab.1 ▸ hk)]
      exact Or.inr ⟨a.2, b.2, rfl, rfl, hab.2⟩
    · rw [if_neg hk, if_neg (hab.1 ▸ hk)]
      exact ih

theorem candidatesOf_congr (q : MemoryQuery) {s s' : BackendState}
    (h : List.Forall₂ entryEquiv s.events s'.events) :
    List.Forall₂ scEquiv (candidatesOf q s) (candidatesOf q s') := by
  have hsearch : List.Forall₂ scEquiv
      ((searchEvents q s).map (fun p => (p.1, some p.2)))
      ((searchEvents q s').map (fun p => (p.1, some p.2))) :=
    forall₂_map_congr _ _
      (fun a b hab => ⟨hab.1, by rw [hab.2]⟩) (searchEvents_congr q h)
  unfold candidatesOf
  cases q.id with
  | none => exact hsearch
  | some i =>
    dsimp only
    by_cases hie : i.isEmpty
    · rw [if_pos hie, if_pos hie]
      exact hsearch
    · rw [if_neg hie, if_neg hie]
      rcases mapGet_congr h i with ⟨h1, h2⟩ | ⟨e, e', h1, h2, hee⟩
      · rw [h1, h2]
        exact List.Forall₂.nil
      · rw [h1, h2]
        exact List.Forall₂.cons ⟨hee, rfl⟩ List.Forall₂.nil

theorem stageTypes_congr (q : MemoryQuery) {l l' : List Scored}
    (h : List.Forall₂ scEquiv l l') :
    List.Forall₂ scEquiv (stageTypes l q) (stageTypes l' q) := by
  unfold stageTypes
  cases q.memoryTypes with
  | none => exact h
  | some ts =>
    dsimp only
    by_cases hl : 0 < ts.length
    · rw [if_pos hl, if_pos hl]
      exact forall₂_filter_congr _ _ (fun a b hab => by rw [hab.1.2.2.1]) h
    · rw [if_neg hl, if_neg hl]
      exact h

theorem tierMatch_congr (ts : List String) {p p' : Scored} (h : scEquiv p p') :
    tierMatch ts p = tierMatch ts p' := by
  unfold tierMatch
  rw [metaEquiv_objGet h.1.2.2.2.2.2.2.2 "storageTier" (by decide) (by decide)]

theorem stageTiers_congr (q : MemoryQuery) {l l' : List Scored}
    (h : List.Forall₂ scEquiv l l') :
    List.Forall₂ scEquiv (stageTiers l q) (stageTiers l' q) := by
  unfold stageTiers
  cases q.storageTiers with
  | none => exact h
  | some ts =>
    dsimp only
    by_cases hl : 0 < ts.length
    · rw [if_pos hl, if_pos hl]
      exact forall₂_filter_congr _ _ (fun a b hab => tierMatch_congr ts hab) h
    · rw [if_neg hl, if_neg hl]
      exact h

theorem timeMatch_congr (tr : Option ℚ × Option ℚ) {p p' : Scored} (h : scEquiv p p') :
    timeMatch tr p = timeMatch tr p' := by
  unfold timeMatch
  rw [h.1.2.2.2.2.2.1]

theorem stageTime_congr (q : MemoryQuery) {l l' : List Scored}
    (h : List.Forall₂ scEquiv l l') :
    List.Forall₂ scEquiv (stageTime l q) (stageTime l' q) := by
  unfold stageTime
  cases q.timeRange with
  | none => exact h
  | some tr => exact forall₂_filter_congr _ _ (fun a b hab => timeMatch_congr tr hab) h

theorem filtersMatch_congr (fs : Meta)
    (hkeys : ∀ kv ∈ fs, kv.1 ≠ "accessCount" ∧ kv.1 ≠ "lastAccessed")
    {p p' : Scored} (h : scEquiv p p') : filtersMatch fs p = filtersMatch fs p' := by
  unfold filtersMatch
  induction fs with
  | nil => rfl
  | cons kv rest ih =>
    have hkv := hkeys kv (List.mem_cons_self _ _)
    rw [List.all_cons, List.all_cons,
      metaEquiv_objGet h.1.2.2.2.2.2.2.2 kv.1 hkv.1 hkv.2,
      ih (fun x hx => hkeys x (List.mem_cons_of_mem _ hx))]

theorem stageFilters_congr (q : MemoryQuery)
    (hflt : ∀ kv ∈ q.filters.getD [], kv.1 ≠ "accessCount" ∧ kv.1 ≠ "lastAccessed")
    {l l' : List Scored} (h : List.Forall₂ scEquiv l l') :
    List.Forall₂ scEquiv (stageFilters l q) (stageFilters l' q) := by
  unfold stageFilters
  cases hq : q.filters with
  | none => exact h
  | some fs =>
    rw [hq] at hflt
    exact forall₂_filter_congr _ _ (fun a b hab => filtersMatch_congr fs hflt hab) h

theorem applyFilters_congr (q : MemoryQuery)
    (hflt : ∀ kv ∈ q.filters.getD [], kv.1 ≠ "accessCount" ∧ kv.1 ≠ "lastAccessed")
    {l l' : List Scored} (h : List.Forall₂ scEquiv l l') :
    List.Forall₂ scEquiv (applyFilters l q) (applyFilters l' q) :=
  stageFilters_congr q hflt (stageTime_congr q (stageTiers_congr q (stageTypes_congr q h)))

theorem cmpResults_congr {a a' b b' : Scored} (ha : scEquiv a a') (hb : scEquiv b b') :
    cmpResults a b = cmpResults a' b' := by
  unfold cmpResults
  rw [ha.2, hb.2,
    metaEquiv_objGet ha.1.2.2.2.2.2.2.2 "importance" (by decide) (by decide),
    metaEquiv_objGet hb.1.2.2.2.2.2.2.2 "importance" (by decide) (by decide),
    ha.1.2.2.2.2.2.1, hb.1.2.2.2.2.2.1]

theorem sortRel_congr {a a' b b' : Scored} (ha : scEquiv a a') (hb : scEquiv b b') :
    sortRel a b = sortRel a' b' := by
  unfold sortRel
  rw [cmpResults_congr ha hb]

theorem orderedIns_congr {x x' : Scored} (hx : scEquiv x x') :
    ∀ {l l' : List Scored}, List.Forall₂ scEquiv l l' →
      List.Forall₂ scEquiv (orderedIns x l) (orderedIns x' l') := by
  intro l l' h
  induction h with
  | nil => exact List.Forall₂.cons hx List.Forall₂.nil
  | cons hab htl ih =>
    rename_i y y' l₁ l₂
    unfold orderedIns
    have hrel := sortRel_congr hx hab
    by_cases hc : sortRel x y = true
    · rw [if_pos hc, if_pos (hrel ▸ hc)]
      exact List.Forall₂.cons hx (List.Forall₂.cons hab htl)
    · rw [if_neg hc, if_neg (hrel ▸ hc)]
      exact List.Forall₂.cons hab ih

theorem isort_congr : ∀ {l l' : List Scored}, List.Forall₂ scEquiv l l' →
    List.Forall₂ scEquiv (isort l) (isort l') := by
  intro l l' h
  induction h with
  | nil => exact List.Forall₂.nil
  | cons hab htl ih => exact orderedIns_congr hab ih

theorem sortedFiltered_congr (q : MemoryQuery)
    (hflt : ∀ kv ∈ q.filters.getD [], kv.1 ≠ "accessCount" ∧ kv.1 ≠ "lastAccessed")
    {s s' : BackendState} (h : List.Forall₂ entryEquiv s.events s'.events) :
    List.Forall₂ scEquiv (sortedFiltered q s) (sortedFiltered q s') :=
  isort_congr (applyFilters_congr q hflt (candidatesOf_congr q h))

theorem metaEquiv_bump (now : ℚ) {m m' : Meta} (h : metaEquiv m m') :
    metaEquiv m (bumpMeta now m') :=
  fun k h1 h2 => (h k h1 h2).trans (bumpMeta_other now m' k h1 h2).symm

theorem forall₂_bumpAccess (now : ℚ) (id : String)
    {l l₁ : List (String × MemoryEvent)} (h : List.Forall₂ entryEquiv l l₁) :
    List.Forall₂ entryEquiv l (bumpAccess now l₁ id) := by
  unfold bumpAccess
  refine forall₂_map_right _ ?_ h
  intro a b hab
  by_cases hb : b.1 = id
  · rw [if_pos hb]
    exact ⟨hab.1, hab.2.1, hab.2.2.1, hab.2.2.2.1, hab.2.2.2.2.1, hab.2.2.2.2.2.1,
      hab.2.2.2.2.2.2.1, hab.2.2.2.2.2.2.2.1, metaEquiv_bump now hab.2.2.2.2.2.2.2.2⟩
  · rw [if_neg hb]
    exact hab

theorem forall₂_bumpedEvents (now : ℚ) (ps : List Scored)
    {l l₁ : List (String × MemoryEvent)} (h : List.Forall₂ entryEquiv l l₁) :
    List.Forall₂ entryEquiv l (bumpedEvents now ps l₁) := by
  induction ps generalizing l₁ with
  | nil => exact h
  | cons x xs ih => exact ih (forall₂_bumpAccess now x.1.id h)

theorem evEquiv_refl (e : MemoryEvent) : evEquiv e e :=
  ⟨rfl, rfl, rfl, rfl, rfl, rfl, rfl, fun _ _ _ => rfl⟩

theorem stEquiv_refl (s : BackendState) : stEquiv s s :=
  ⟨rfl, List.forall₂_same.mpr (fun x _ => ⟨rfl, evEquiv_refl x.2⟩)⟩

theorem idsOf_sortedFiltered_nodup (q : MemoryQuery) (s : BackendState)
    (hwf : WFState s) : (idsOf (sortedFiltered q s)).Nodup := by
  have hperm : (idsOf (sortedFiltered q s)).Perm (idsOf (applyFilters (candidatesOf q s) q)) :=
    (sortResults_perm _).map _
  exact hperm.nodup_iff.mpr
    ((idsOf_candidates_nodup q s hwf).sublist ((applyFilters_sublist _ _).map _))

theorem effLimit_some_pos (L : ℕ) (hL : 0 < L) : effLimit (some L) = L := by
  show (if L = 0 then DEFAULT_SEARCH_LIMIT else L) = L
  rw [if_neg (Nat.pos_iff_ne_zero.mp hL)]

theorem runPages_succ_eq (nowf : ℕ → ℚ) (q : MemoryQuery) (L K k : ℕ)
    (s₁ : BackendState) (hinit : s₁.inited = true) :
    (runPages nowf q L (K + 1) k s₁).1
      = pageOf { q with offset := some (k * L), limit := some L } s₁ ::
        (runPages nowf q L K (k + 1) (nextState nowf q L k s₁)).1 := by
  have hret := retrieve_eq (nowf k) { q with offset := some (k * L), limit := some L } s₁ hinit
  simp only [runPages, hret, nextState]

theorem runPages_ids (nowf : ℕ → ℚ) (q : MemoryQuery) (L : ℕ) (hL : 0 < L)
    (hflt : ∀ kv ∈ q.filters.getD [], kv.1 ≠ "accessCount" ∧ kv.1 ≠ "lastAccessed")
    (s : BackendState) (hs : s.inited = true) :
    ∀ (K k : ℕ) (s₁ : BackendState), stEquiv s s₁ →
      pagesIds (runPages nowf q L K k s₁).1
        = ((idsOf (sortedFiltered q s)).drop (k * L)).take (K * L) := by
  intro K
  induction K with
  | zero =>
    intro k s₁ hst
    simp [runPages, pagesIds]
  | succ K ih =>
    intro k s₁ hst
    have hinit : s₁.inited = true := hst.1 ▸ hs
    have hst' : stEquiv s (nextState nowf q L k s₁) :=
      ⟨hst.1, forall₂_bumpedEvents _ _ hst.2⟩
    have hids' : idsOf (sortedFiltered { q with offset := some (k * L), limit := some L } s₁)
        = idsOf (sortedFiltered q s) := by
      have h1 : sortedFiltered { q with offset := some (k * L), limit := some L } s₁
          = sortedFiltered q s₁ := rfl
      rw [h1]
      exact (forall₂_eq_of_ids (sortedFiltered_congr q hflt hst.2)).symm
    have hpage : idsOf (pageOf { q with offset := some (k * L), limit := some L } s₁)
        = ((idsOf (sortedFiltered q s)).drop (k * L)).take L := by
      show idsOf (((sortedFiltered { q with offset := some (k * L), limit := some L } s₁).drop
          (k * L)).take (effLimit (some L)))
        = ((idsOf (sortedFiltered q s)).drop (k * L)).take L
      rw [effLimit_some_pos L hL]
      unfold idsOf
      rw [List.map_take, List.map_drop]
      rw [show (sortedFiltered { q with offset := some (k * L), limit := some L } s₁).map
            (fun p => p.1.id) = idsOf (sortedFiltered q s) from hids']
      rfl
    have hjoin : pagesIds (runPages nowf q L (K + 1) k s₁).1
        = idsOf (pageOf { q with offset := some (k * L), limit := some L } s₁) ++
          pagesIds (runPages nowf q L K (k + 1) (nextState nowf q L k s₁)).1 := by
      rw [runPages_succ_eq nowf q L K k s₁ hinit]
      simp [pagesIds]
    rw [hjoin, hpage, ih (k + 1) _ hst']
    rw [show (K + 1) * L = L + K * L from by rw [Nat.succ_mul, Nat.add_comm]]
    rw [List.take_add]
    congr 1
    rw [List.drop_drop]
    congr 1
    rw [Nat.succ_mul]

/-- C8 (amended): over a record set whose membership does not change,
concatenating the pages obtained with offsets `0, L, 2L, …` — each call
running on the state the previous call's access-tracking bumps produced —
reproduces the unpaginated sorted id sequence exactly once per record,
**provided the query's free-form metadata filters do not constrain
`accessCount` or `lastAccessed`** (the fields the bumps mutate; scoring,
the other filters, and the sort read only fields the bumps leave
untouched). -/
theorem mmp_c8_pagination (nowf : ℕ → ℚ) (q : MemoryQuery) (L K : ℕ)
    (s : BackendState) (hs : s.inited = true) (hwf : WFState s) (hL : 0 < L)
    (hflt : ∀ kv ∈ q.filters.getD [], kv.1 ≠ "accessCount" ∧ kv.1 ≠ "lastAccessed")
    (hcover : (idsOf (sortedFiltered q s)).length ≤ K * L) :
    pagesIds (runPages nowf q L K 0 s).1 = idsOf (sortedFiltered q s) ∧
    (pagesIds (runPages nowf q L K 0 s).1).Nodup := by
  have h0 := runPages_ids nowf q L hL hflt s hs K 0 s (stEquiv_refl s)
  rw [Nat.zero_mul, List.drop_zero] at h0
  rw [h0, List.take_of_length_le hcover]
  exact ⟨rfl, idsOf_sortedFiltered_nodup q s hwf⟩

unseal Rat.add Rat.mul Rat.inv Rat.sub in
/-- C8 counterexample: two stored records both carrying `accessCount = 1`,
a query whose filter demands `accessCount = 1` and `limit = 1`.  The first
page returns record "a" and bumps its stored `accessCount` to 2; the second
call (offset 1) now filters "a" out, its one-record filtered set has no
offset-1 element, and the concatenation misses record "b" — a gap, although
the record set's membership never changed. -/
theorem mmp_c8_cex :
    pagesIds (runPages (fun _ => 7) c8Q 1 2 0 c8S).1 = ["a"] ∧
    idsOf (sortedFiltered c8Q c8S) = ["a", "b"] := by decide

unseal Rat.add Rat.mul Rat.inv Rat.sub in
/-- C8 witness: the amended theorem applied at a concrete two-record
backend without filters — pages of size 1 concatenate to the full sorted id
sequence, without duplicates. -/
theorem mmp_c8_witness :
    pagesIds (runPages (fun _ => 7) c8wQ 1 2 0 c8S).1 = idsOf (sortedFiltered c8wQ c8S) ∧
    (pagesIds (runPages (fun _ => 7) c8wQ 1 2 0 c8S).1).Nodup :=
  mmp_c8_pagination (fun _ => 7) c8wQ 1 2 c8S rfl (by decide) (by decide)
    (by decide) (by decide)
